import Mathlib

/-! The tag-indexed media catalog of scoreplay (`internal/service/media.go`).

A shallow embedding of `mediaService` and of the library functions it calls
(`net/url`, `strings`, `path`, the rueidis result accessors), followed by the
properties of the catalog proved over that embedding.

Go strings are byte sequences: a string is a list of bytes, a byte is a
`Fin 256`.  Go's `(value, error)` results are kept as pairs of options so that
"the value is nil" and "the error is nil" stay independent observations.
-/

set_option autoImplicit false

namespace Scoreplay

deriving instance DecidableEq for Except

/-! ## Strings -/

abbrev Byte := Fin 256

abbrev Str := List Byte

/-- The bytes of an ASCII literal. -/
def ascii (s : String) : Str := s.toList.map (fun c => Fin.ofNat c.toNat)

/-- Decimal rendering of a non-negative `int`, the `%d` verb of `fmt`. -/
def itoa (n : Nat) : Str := (Nat.toDigits 10 n).map (fun c => Fin.ofNat c.toNat)

/-! ## Errors -/

/-- Go error values as the service meets them: an error of a collaborator
(`base`, identified by its message), `url.EscapeError` (carrying the offending
bytes), and `fmt.Errorf` with one `%w` verb (the text before the verb, the
wrapped error, the text after it). -/
inductive GoError where
  | base (msg : Str)
  | escapeError (s : Str)
  | wrap (pre : Str) (inner : GoError) (post : Str)
  deriving DecidableEq, Repr

/-- The `errors.Unwrap` view: the error a `%w` verb wrapped. -/
def GoError.Unwrap : GoError → Option GoError
  | .wrap _ inner _ => some inner
  | _ => none

/-- The `Error()` text.  `quote` stands for `strconv.Quote`, which
`url.EscapeError.Error` applies to the offending bytes. -/
def GoError.Error (quote : Str → Str) : GoError → Str
  | .base msg => msg
  | .escapeError s => ascii "invalid URL escape " ++ quote s
  | .wrap pre inner post => pre ++ inner.Error quote ++ post

/-! ## `net/url`: `QueryEscape` and `QueryUnescape`

Both are the `encodeQueryComponent` mode of `escape` / `unescape`. -/

/-- Lookup table `upperhex` of `net/url`. -/
def upperhex : Str := ascii "0123456789ABCDEF"

/-- Function `ishex` of `net/url`. -/
def ishex (c : Byte) : Bool :=
  (48 ≤ c.val && c.val ≤ 57) || (97 ≤ c.val && c.val ≤ 102) || (65 ≤ c.val && c.val ≤ 70)

/-- Function `unhex` of `net/url`. -/
def unhex (c : Byte) : Byte :=
  if 48 ≤ c.val ∧ c.val ≤ 57 then Fin.ofNat (c.val - 48)
  else if 97 ≤ c.val ∧ c.val ≤ 102 then Fin.ofNat (c.val - 97 + 10)
  else if 65 ≤ c.val ∧ c.val ≤ 70 then Fin.ofNat (c.val - 65 + 10)
  else 0

/-- Function `shouldEscape(c, encodeQueryComponent)`: alphanumerics and the
marks `-`, `_`, `.`, `~` stay; the reserved characters and everything else are
escaped. -/
def shouldEscape (c : Byte) : Bool :=
  if (97 ≤ c.val && c.val ≤ 122) || (65 ≤ c.val && c.val ≤ 90) || (48 ≤ c.val && c.val ≤ 57) then
    false
  else if c = 45 ∨ c = 95 ∨ c = 46 ∨ c = 126 then
    false
  else
    true

/-- One step of the second loop of `escape`: what is written for byte `c`. -/
def escapeByte (c : Byte) : Str :=
  if c = 32 then [43]
  else if shouldEscape c then
    [37, upperhex.getD (c.val / 16) 0, upperhex.getD (c.val % 16) 0]
  else [c]

/-- The first loop of `escape`: `(spaceCount, hexCount)`. -/
def escapeCount : Str → Nat × Nat
  | [] => (0, 0)
  | c :: rest =>
    let (spaceCount, hexCount) := escapeCount rest
    if shouldEscape c then
      if c = 32 then (spaceCount + 1, hexCount) else (spaceCount, hexCount + 1)
    else (spaceCount, hexCount)

/-- Function `url.QueryEscape`. -/
def QueryEscape (s : Str) : Str :=
  let (spaceCount, hexCount) := escapeCount s
  if spaceCount = 0 ∧ hexCount = 0 then s else s.flatMap escapeByte

/-- The first loop of `unescape`: checks every `%` escape and reports
`(n, hasPlus)`, or the bytes `EscapeError` is built from (`s[i:]` cut to three
bytes). -/
def unescapeCheck : Str → Nat → Bool → Except Str (Nat × Bool)
  | [], n, hasPlus => .ok (n, hasPlus)
  | c :: rest, n, hasPlus =>
    if c = 37 then
      match rest with
      | a :: b :: rest2 =>
        if ishex a && ishex b then unescapeCheck rest2 (n + 1) hasPlus
        else .error ((c :: rest).take 3)
      | _ => .error ((c :: rest).take 3)
    else if c = 43 then unescapeCheck rest n true
    else unescapeCheck rest n hasPlus

/-- The second loop of `unescape`.  It runs only on input the first loop
accepted, where every `%` has two bytes after it; the last branch of the inner
match is there for totality. -/
def unescapeBuild : Str → Str
  | [] => []
  | c :: rest =>
    if c = 37 then
      match rest with
      | a :: b :: rest2 =>
        Fin.ofNat (((unhex a).val * 16 % 256) ||| (unhex b).val) :: unescapeBuild rest2
      | _ => []
    else if c = 43 then 32 :: unescapeBuild rest
    else c :: unescapeBuild rest

/-- Function `url.QueryUnescape`. -/
def QueryUnescape (s : Str) : Str × Option GoError :=
  match unescapeCheck s 0 false with
  | .error bad => ([], some (.escapeError bad))
  | .ok (n, hasPlus) =>
    if n = 0 ∧ hasPlus = false then (s, none) else (unescapeBuild s, none)

/-! ## `strings`: `Split` and `Join` with separator `","` -/

/-- Function `strings.Count(s, ",")`. -/
def countComma (s : Str) : Nat := s.count 44

/-- Function `strings.Index(s, ",")`, `none` for `-1`. -/
def indexComma : Str → Option Nat
  | [] => none
  | c :: rest => if c = 44 then some 0 else (indexComma rest).map (· + 1)

/-- The loop of `strings.genSplit`: at most `n` cuts at the first separator. -/
def splitLoop : Nat → Str → List Str
  | 0, s => [s]
  | n + 1, s =>
    match indexComma s with
    | none => [s]
    | some m => s.take m :: splitLoop n (s.drop (m + 1))

/-- Function `strings.Split(s, ",")`. -/
def Split (s : Str) : List Str := splitLoop (countComma s) s

/-- Function `strings.Join(elems, sep)`. -/
def Join : List Str → Str → Str
  | [], _ => []
  | [x], _ => x
  | x :: y :: rest, sep => x ++ sep ++ Join (y :: rest) sep

/-! ## `path`: `Clean` and `Join` -/

/-- The backtracking loop of the `..` case of `path.Clean`, on the written
part of the buffer in reverse: `last` is the byte just dropped
(`out.index(out.w)`), the loop drops on while `out.w > dotdot` and that byte
is not `/`. -/
def cleanBack (dotdot : Nat) : Byte → Str → Str
  | _, [] => []
  | last, y :: outRev =>
    if (y :: outRev).length > dotdot ∧ last ≠ 47 then cleanBack dotdot y outRev
    else y :: outRev

/-- The `out.w--` and the loop after it, on the written part of the buffer. -/
def cleanBacktrack (dotdot : Nat) (out : Str) : Str :=
  match out.reverse with
  | [] => []
  | last :: outRev => (cleanBack dotdot last outRev).reverse

/-- The main loop of `path.Clean`.  `rest` is `path[r:]`, `out` the written
part of the lazy buffer (`out.w` is its length).  Every round consumes at least
one byte of `rest`, so `fuel = len(path)` rounds always reach the end. -/
def cleanLoop (rooted : Bool) : Nat → Str → Str → Nat → Str
  | 0, _, out, _ => out
  | _ + 1, [], out, _ => out
  | fuel + 1, c :: rest, out, dotdot =>
    if c = 47 then
      cleanLoop rooted fuel rest out dotdot
    else if c = 46 ∧ (rest = [] ∨ rest.head? = some 47) then
      cleanLoop rooted fuel rest out dotdot
    else if c = 46 ∧ rest.head? = some 46 ∧ (rest.tail = [] ∨ rest.tail.head? = some 47) then
      if out.length > dotdot then
        cleanLoop rooted fuel rest.tail (cleanBacktrack dotdot out) dotdot
      else if rooted = false then
        let out1 := (if out.length > 0 then out ++ [47] else out) ++ [46, 46]
        cleanLoop rooted fuel rest.tail out1 out1.length
      else
        cleanLoop rooted fuel rest.tail out dotdot
    else
      let out1 :=
        if (rooted = true ∧ out.length ≠ 1) ∨ (rooted = false ∧ out.length ≠ 0) then out ++ [47]
        else out
      cleanLoop rooted fuel ((c :: rest).dropWhile (· ≠ 47))
        (out1 ++ (c :: rest).takeWhile (· ≠ 47)) dotdot

/-- Function `path.Clean`. -/
def Clean (path : Str) : Str :=
  match path with
  | [] => [46]
  | c :: rest =>
    let rooted : Bool := c = 47
    let out :=
      if rooted then cleanLoop true path.length rest [47] 1
      else cleanLoop false path.length path [] 0
    if out.length = 0 then [46] else out

/-- Function `path.Join`. -/
def pathJoin (elem : List Str) : Str :=
  if (elem.map List.length).sum = 0 then []
  else
    Clean (elem.foldl (fun buf e =>
      if buf.length > 0 ∨ e ≠ [] then (if buf.length > 0 then buf ++ [47] else buf) ++ e
      else buf) [])

/-! ## `net/url.URL`, `uuid.UUID`, the presigned request -/

/-- Type `url.Userinfo`. -/
structure Userinfo where
  username : Str
  password : Str
  passwordSet : Bool
  deriving DecidableEq, Repr

/-- Type `url.URL`. -/
structure URL where
  Scheme : Str := []
  Opaque : Str := []
  User : Option Userinfo := none
  Host : Str := []
  Path : Str := []
  RawPath : Str := []
  OmitHost : Bool := false
  ForceQuery : Bool := false
  RawQuery : Str := []
  Fragment : Str := []
  RawFragment : Str := []
  deriving DecidableEq, Repr

/-- Type `uuid.UUID`, a 16-byte array. -/
structure UUID where
  bytes : List Byte
  size : bytes.length = 16
  deriving DecidableEq

/-- Function `hex.Encode`: two lower-case digits per byte. -/
def hexEncode (src : Str) : Str :=
  src.flatMap (fun c =>
    [(ascii "0123456789abcdef").getD (c.val / 16) 0, (ascii "0123456789abcdef").getD (c.val % 16) 0])

/-- Method `uuid.UUID.String`: `xxxxxxxx-xxxx-xxxx-xxxx-xxxxxxxxxxxx`. -/
def UUID.String (u : UUID) : Str :=
  hexEncode (u.bytes.take 4) ++ [45] ++ hexEncode ((u.bytes.drop 4).take 2) ++ [45] ++
    hexEncode ((u.bytes.drop 6).take 2) ++ [45] ++ hexEncode ((u.bytes.drop 8).take 2) ++ [45] ++
    hexEncode (u.bytes.drop 10)

/-- Type `s3.PutObjectInput`, the two fields the service fills. -/
structure PutObjectInput where
  Bucket : Str
  Key : Str
  deriving DecidableEq, Repr

/-- Type `v4.PresignedHTTPRequest`. -/
structure PresignedHTTPRequest where
  URL : Str
  Method : Str
  SignedHeader : List (Str × List Str)
  deriving DecidableEq, Repr

/-! ## The rueidis client: commands, results, accessors -/

/-- The four commands the service builds. -/
inductive Cmd where
  | Sadd (key member : Str)
  | Smembers (key : Str)
  | Hgetall (key : Str)
  | Hset (key : Str) (fieldValues : List (Str × Str))
  deriving DecidableEq, Repr

/-- A `rueidis.RedisResult` as far as the accessors used here tell results
apart: `failure` is a result whose `Error()` is non-nil (a client error, an
error reply or a null reply); `array` is an array (`isSet = false`) or set reply
of strings; `map` is a map reply of strings, in message order; `other` is any
other reply (integer, string, ...), known by its type name. -/
inductive RedisResult where
  | failure (err : GoError)
  | array (isSet : Bool) (values : List Str)
  | map (pairs : List (Str × Str))
  | other (typeName : Str)
  deriving DecidableEq, Repr

/-- A Go `map[string]string`: the entry found first is the current one. -/
abbrev GoMap := List (Str × Str)

/-- Indexing `m[k]`: the empty string when the key is missing. -/
def GoMap.get (m : GoMap) (k : Str) : Str := (m.lookup k).getD []

/-- Method `RedisResult.Error`. -/
def RedisResult.Error : RedisResult → Option GoError
  | .failure err => some err
  | _ => none

/-- The sentinel `errParse` of rueidis. -/
def errParse : GoError := .base (ascii "rueidis: parse error")

/-- Method `RedisResult.AsStrSlice`. -/
def RedisResult.AsStrSlice : RedisResult → Option (List Str) × Option GoError
  | .failure err => (none, some err)
  | .array _ values => (some values, none)
  | .map _ =>
    (none, some (.wrap [] errParse (ascii ": redis message type map is not a array")))
  | .other typeName =>
    (none, some (.wrap [] errParse
      (ascii ": redis message type " ++ typeName ++ ascii " is not a array")))

/-- The loop of `RedisMessage.AsStrMap` over the flat values of an array
reply: `r[k] = v` for every pair. -/
def pairUp : List Str → GoMap → GoMap
  | k :: v :: rest, r => pairUp rest ((k, v) :: r)
  | _, r => r

/-- Method `RedisResult.AsStrMap`. -/
def RedisResult.AsStrMap : RedisResult → Option GoMap × Option GoError
  | .failure err => (none, some err)
  | .map pairs => (some (pairs.foldl (fun r kv => kv :: r) []), none)
  | .array isSet values =>
    if values.length % 2 = 0 then (some (pairUp values []), none)
    else
      (none, some (.wrap [] errParse
        (ascii ": redis message type " ++ (if isSet then ascii "set" else ascii "array") ++
          ascii " is not a map/array/set or its length is not even")))
  | .other typeName =>
    (none, some (.wrap [] errParse
      (ascii ": redis message type " ++ typeName ++
        ascii " is not a map/array/set or its length is not even")))

/-- The part of `rueidis.Client` the service uses, over a world state `σ`:
`Do` sends one command, `DoMulti` a batch. -/
structure Client (σ : Type) where
  Do : σ → Cmd → RedisResult × σ
  DoMulti : σ → List Cmd → List RedisResult × σ

/-! ## `internal/service/media.go` -/

def tagsKey : Str := ascii "tags"

def tagsPrefix : Str := tagsKey ++ ascii ":"

def mediaPrefix : Str := ascii "media:"

def nameField : Str := ascii "name"

def tagsField : Str := ascii "tags"

/-- How a Go call ends: it returns, or it panics (index out of range). -/
inductive Outcome (α : Type) where
  | returned (value : α)
  | panicked
  deriving DecidableEq, Repr

/-- Type `mediaService`.  The collaborators act on a world state `σ`;
`presignClient` is `PresignPutObject(ctx, params, optFns...)`. -/
structure mediaService (σ : Type) where
  bucket : Str
  endpointURL : URL
  generateUUID : σ → (UUID × Option GoError) × σ
  presignClient : σ → PutObjectInput → List Unit →
    (Option PresignedHTTPRequest × Option GoError) × σ
  rueidisClient : Client σ

structure CreateTagParams where
  Name : Str
  deriving DecidableEq, Repr

/-- Method `mediaService.CreateTag`. -/
def mediaService.CreateTag {σ : Type} (s : mediaService σ) (w : σ) (params : CreateTagParams) :
    Option GoError × σ :=
  let (resp, w1) := s.rueidisClient.Do w (.Sadd tagsKey params.Name)
  match resp.Error with
  | some err => (some (.wrap (ascii "creating tag: ") err []), w1)
  | none => (none, w1)

abbrev Tag := Str

abbrev ListTagsResult := List Tag

/-- Method `mediaService.ListTags`. -/
def mediaService.ListTags {σ : Type} (s : mediaService σ) (w : σ) :
    (Option ListTagsResult × Option GoError) × σ :=
  let (resp, w1) := s.rueidisClient.Do w (.Smembers tagsKey)
  match resp.AsStrSlice with
  | (_, some err) => ((none, some (.wrap (ascii "getting tags from redis: ") err [])), w1)
  | (tags, none) => ((tags, none), w1)

structure ListMediaParams where
  Tag : Str
  deriving DecidableEq, Repr

/-- Type `MediaRecord`.  `Tags` is `[]` for the nil slice of a zero record; a
decoded tag list always has at least one entry. -/
structure MediaRecord where
  Key : Str := []
  Name : Str := []
  URL : URL := {}
  Tags : List Str := []
  deriving DecidableEq, Repr

abbrev ListMediaResult := List MediaRecord

/-- The inner loop of `ListMedia`: unescape the segments in order; the first
failure ends it with `decoding tag i`. -/
def decodeTags : Nat → List Str → Option (List Str) × Option GoError
  | _, [] => (some [], none)
  | i, encodedTag :: rest =>
    match QueryUnescape encodedTag with
    | (_, some err) => (none, some (.wrap (ascii "decoding tag " ++ itoa i ++ ascii ": ") err []))
    | (tag, none) =>
      match decodeTags (i + 1) rest with
      | (some tags, none) => (some (tag :: tags), none)
      | failed => failed

/-- The record `ListMedia` stores in `result[i]`: the literal with the copy of
`s.endpointURL`, then the assignment to `result[i].URL.Path`. -/
def mediaService.newRecord {σ : Type} (s : mediaService σ) (key name : Str) (tags : List Str) :
    MediaRecord :=
  let rec0 : MediaRecord := { Key := key, Name := name, Tags := tags, URL := s.endpointURL }
  { rec0 with
    URL := { rec0.URL with Path := pathJoin [ascii "/", rec0.URL.Path, s.bucket, key] } }

/-- The loop of `ListMedia` over the batch responses, from position `i`, with
`result` the slice allocated before the loop. -/
def mediaService.listLoop {σ : Type} (s : mediaService σ) (keys : List Str) :
    Nat → List RedisResult → ListMediaResult →
      Outcome (Option ListMediaResult × Option GoError)
  | _, [], result => .returned (some result, none)
  | i, resp :: resps, result =>
    match resp.Error with
    | some err =>
      .returned (none, some (.wrap (ascii "getting media record " ++ itoa i ++ ascii ": ") err []))
    | none =>
      match resp.AsStrMap with
      | (_, some err) =>
        .returned (none,
          some (.wrap (ascii "decoding media record " ++ itoa i ++ ascii ": ") err []))
      | (record, none) =>
        match decodeTags 0 (Split ((record.getD []).get tagsField)) with
        | (_, some err) => .returned (none, some err)
        | (tags, none) =>
          match keys[i]? with
          | none => .panicked
          | some key =>
            if i < result.length then
              s.listLoop keys (i + 1) resps
                (result.set i (s.newRecord key ((record.getD []).get nameField) (tags.getD [])))
            else .panicked

/-- Method `mediaService.ListMedia`. -/
def mediaService.ListMedia {σ : Type} (s : mediaService σ) (w : σ) (params : ListMediaParams) :
    Outcome (Option ListMediaResult × Option GoError) × σ :=
  let (resp, w1) := s.rueidisClient.Do w (.Smembers (tagsPrefix ++ params.Tag))
  match resp.AsStrSlice with
  | (_, some err) =>
    (.returned (none, some (.wrap (ascii "getting media keys from redis: ") err [])), w1)
  | (keys, none) =>
    let cmds := (keys.getD []).map (fun key => Cmd.Hgetall (mediaPrefix ++ key))
    let result : ListMediaResult := List.replicate cmds.length {}
    let (resps, w2) := s.rueidisClient.DoMulti w1 cmds
    (s.listLoop (keys.getD []) 0 resps result, w2)

structure CreateMediaParams where
  Name : Str
  Tags : List Str
  deriving DecidableEq, Repr

abbrev CreateMediaResult := PresignedHTTPRequest

/-- The batch `CreateMedia` builds: the hash-write of the record, then for
every tag the two set-adds. -/
def createMediaCmds (params : CreateMediaParams) (keyStr : Str) : List Cmd :=
  let encodedTags := params.Tags.map QueryEscape
  Cmd.Hset (mediaPrefix ++ keyStr)
      [(nameField, params.Name), (tagsField, Join encodedTags (ascii ","))] ::
    params.Tags.flatMap (fun tag =>
      [Cmd.Sadd tagsKey tag, Cmd.Sadd (tagsPrefix ++ tag) keyStr])

/-- The last loop of `CreateMedia`: the first response with an error ends the
call with `executing command i`. -/
def checkResponses : Nat → List RedisResult → Option GoError
  | _, [] => none
  | i, resp :: resps =>
    match resp.Error with
    | some err => some (.wrap (ascii "executing command " ++ itoa i ++ ascii ": ") err [])
    | none => checkResponses (i + 1) resps

/-- Method `mediaService.CreateMedia`. -/
def mediaService.CreateMedia {σ : Type} (s : mediaService σ) (w : σ)
    (params : CreateMediaParams) : (Option CreateMediaResult × Option GoError) × σ :=
  match s.generateUUID w with
  | ((_, some err), w1) => ((none, some (.wrap (ascii "generating UUID: ") err [])), w1)
  | ((key, none), w1) =>
    let keyStr := key.String
    match s.presignClient w1 { Bucket := s.bucket, Key := keyStr } [] with
    | ((_, some err), w2) =>
      ((none, some (.wrap (ascii "presigning put object: ") err [])), w2)
    | ((request, none), w2) =>
      let (resps, w3) := s.rueidisClient.DoMulti w2 (createMediaCmds params keyStr)
      match checkResponses 0 resps with
      | some err => ((none, some err), w3)
      | none => ((request, none), w3)

/-! ## The model store

Sets and hashes, each kind in a key space of its own, a missing key being the
empty set or the empty hash.  A set lists its members in the order they were
first added.  Every command succeeds unless a fault is injected. -/

structure Store where
  sets : Str → List Str
  hashes : Str → List (Str × Str)
  sets_nodup : ∀ key, (sets key).Nodup

/-- The store before any command. -/
def Store.empty : Store :=
  { sets := fun _ => [], hashes := fun _ => [], sets_nodup := fun _ => List.nodup_nil }

/-- One field of an `HSET`: overwrite the field or add it. -/
def hsetField (h : List (Str × Str)) (fv : Str × Str) : List (Str × Str) :=
  if h.any (fun kv => kv.1 = fv.1) then h.map (fun kv => if kv.1 = fv.1 then fv else kv)
  else h ++ [fv]

/-- The effect and the reply of one command that succeeds. -/
def Store.exec (st : Store) : Cmd → RedisResult × Store
  | .Sadd key member =>
    (.other (ascii "int64"),
      if h : member ∈ st.sets key then st
      else
        { st with
          sets := Function.update st.sets key (st.sets key ++ [member])
          sets_nodup := by
            intro k
            by_cases hk : k = key
            · subst hk
              rw [Function.update_same]
              exact List.Nodup.append (st.sets_nodup k) (List.nodup_singleton member)
                (by
                  intro a ha hm
                  rw [List.mem_singleton] at hm
                  exact h (hm ▸ ha))
            · rw [Function.update_noteq hk]
              exact st.sets_nodup k })
  | .Smembers key => (.array true (st.sets key), st)
  | .Hgetall key => (.map (st.hashes key), st)
  | .Hset key fieldValues =>
    (.other (ascii "int64"),
      { st with
        hashes := Function.update st.hashes key (fieldValues.foldl hsetField (st.hashes key)) })

/-- A pipelined, non-transactional batch: the commands run in order from
position `i`; the command at a position where `faults` holds an error fails
with it and changes nothing, the others run all the same. -/
def Store.run (faults : Nat → Option GoError) : Nat → Store → List Cmd → List RedisResult × Store
  | _, st, [] => ([], st)
  | i, st, cmd :: cmds =>
    match faults i with
    | some err =>
      let (resps, st1) := Store.run faults (i + 1) st cmds
      (.failure err :: resps, st1)
    | none =>
      let (resp, st1) := st.exec cmd
      let (resps, st2) := Store.run faults (i + 1) st1 cmds
      (resp :: resps, st2)

/-- The client of the model store; `faults` is the fault injected per batch
position (a single command is a batch of one). -/
def storeClient (faults : Nat → Option GoError) : Client Store where
  Do := fun st cmd =>
    match Store.run faults 0 st [cmd] with
    | (resp :: _, st1) => (resp, st1)
    | ([], st1) => (.failure errParse, st1)
  DoMulti := fun st cmds => Store.run faults 0 st cmds

/-- No fault at any position. -/
def noFaults : Nat → Option GoError := fun _ => none

/-- The service over the model store.  `uuid` is what the identifier
generator answers and `presigned` what the presigner answers. -/
def modelService (bucket : Str) (endpointURL : URL) (faults : Nat → Option GoError)
    (uuid : UUID × Option GoError) (presigned : Option PresignedHTTPRequest × Option GoError) :
    mediaService Store where
  bucket := bucket
  endpointURL := endpointURL
  generateUUID := fun st => (uuid, st)
  presignClient := fun st _ _ => (presigned, st)
  rueidisClient := storeClient faults

/-! ## Histories of the model store -/

/-- One catalogued media: the identifier it got and what it was created with. -/
structure Created where
  id : Str
  params : CreateMediaParams
  deriving DecidableEq, Repr

/-- `Run h st`: the store `st` is what the empty store becomes under a sequence
of successful `CreateTag` and `CreateMedia` calls in which every generated
identifier is new; `h` lists the media created, in order. -/
inductive Run : List Created → Store → Prop where
  | init : Run [] Store.empty
  | createTag (bucket : Str) (endpointURL : URL) (uuid : UUID × Option GoError)
      (presigned : Option PresignedHTTPRequest × Option GoError) (params : CreateTagParams)
      {h : List Created} {st : Store} :
      Run h st →
      Run h ((modelService bucket endpointURL noFaults uuid presigned).CreateTag st params).2
  | createMedia (bucket : Str) (endpointURL : URL) (u : UUID)
      (request : Option PresignedHTTPRequest) (params : CreateMediaParams)
      {h : List Created} {st : Store} :
      Run h st → u.String ∉ h.map Created.id →
      Run (h ++ [{ id := u.String, params := params }])
        ((modelService bucket endpointURL noFaults (u, none) (request, none)).CreateMedia
          st params).2

/-- What a history says the store holds: the index of a tag lists the media
created with it, every media has its record, no other record exists, and every
tag of a record is in the global set. -/
structure Consistent (h : List Created) (st : Store) : Prop where
  ids_nodup : (h.map Created.id).Nodup
  index : ∀ t, st.sets (tagsPrefix ++ t) =
    (h.filter (fun m => decide (t ∈ m.params.Tags))).map Created.id
  record : ∀ m ∈ h, st.hashes (mediaPrefix ++ m.id) =
    [(nameField, m.params.Name),
      (tagsField, Join (m.params.Tags.map QueryEscape) (ascii ","))]
  unused : ∀ id, id ∉ h.map Created.id → st.hashes (mediaPrefix ++ id) = []
  global : ∀ m ∈ h, ∀ t ∈ m.params.Tags, t ∈ st.sets tagsKey

/-! ## Observing the calls -/

/-- A call to a collaborator. -/
inductive Call where
  | generateUUID
  | PresignPutObject (params : PutObjectInput) (optFns : List Unit)
  | Do (cmd : Cmd)
  | DoMulti (cmds : List Cmd)
  deriving DecidableEq, Repr

/-- The same service with every call to a collaborator appended to a log. -/
def mediaService.traced {σ : Type} (s : mediaService σ) : mediaService (σ × List Call) where
  bucket := s.bucket
  endpointURL := s.endpointURL
  generateUUID := fun w =>
    let (r, w1) := s.generateUUID w.1
    (r, (w1, w.2 ++ [.generateUUID]))
  presignClient := fun w params optFns =>
    let (r, w1) := s.presignClient w.1 params optFns
    (r, (w1, w.2 ++ [.PresignPutObject params optFns]))
  rueidisClient :=
    { Do := fun w cmd =>
        let (r, w1) := s.rueidisClient.Do w.1 cmd
        (r, (w1, w.2 ++ [.Do cmd]))
      DoMulti := fun w cmds =>
        let (r, w1) := s.rueidisClient.DoMulti w.1 cmds
        (r, (w1, w.2 ++ [.DoMulti cmds])) }

/-- A client that answers from a script, whatever it is sent (the mock of the
unit tests): `single` to `Do`, `batch` to `DoMulti`. -/
def scriptedClient (single : RedisResult) (batch : List RedisResult) : Client Unit where
  Do := fun w _ => (single, w)
  DoMulti := fun w _ => (batch, w)

/-- The service over a scripted client. -/
def scriptedService (bucket : Str) (endpointURL : URL) (uuid : UUID × Option GoError)
    (presigned : Option PresignedHTTPRequest × Option GoError)
    (single : RedisResult) (batch : List RedisResult) : mediaService Unit where
  bucket := bucket
  endpointURL := endpointURL
  generateUUID := fun w => (uuid, w)
  presignClient := fun w _ _ => (presigned, w)
  rueidisClient := scriptedClient single batch

/-! ## The claims' own words -/

/-- The string starts with two hexadecimal digits. -/
def startsWithTwoHex : Str → Bool
  | a :: b :: _ => ishex a && ishex b
  | _ => false

/-- The wording of the specification for a segment that is not valid
percent-encoding: it contains a `%` that is not followed by two hexadecimal
digits.  Every position is looked at, none is skipped. -/
def hasBadEscape : Str → Bool
  | [] => false
  | c :: rest => (decide (c = 37) && !startsWithTwoHex rest) || hasBadEscape rest

/-- A tag-decoding error of `ListMedia`: `decoding tag k: ` wrapping a
`url.EscapeError`. -/
def IsTagDecodingError (e : GoError) : Prop :=
  ∃ k bad, e = .wrap (ascii "decoding tag " ++ itoa k ++ ascii ": ") (.escapeError bad) []

/-- The comma-separated segments of the `tags` field of a record read. -/
def segmentsOf (resp : RedisResult) : List Str :=
  Split (GoMap.get (resp.AsStrMap.1.getD []) tagsField)

/-- The call is a call to the presigner. -/
def Call.isPresign : Call → Bool
  | .PresignPutObject _ _ => true
  | _ => false

/-- The call is a call to the store. -/
def Call.isStore : Call → Bool
  | .Do _ => true
  | .DoMulti _ => true
  | _ => false

/-- The command reads and does not write. -/
def Cmd.isRead : Cmd → Bool
  | .Smembers _ => true
  | .Hgetall _ => true
  | _ => false

/-- Function `strings.TrimPrefix`: `s` without the leading `pre` when it starts
with it. -/
def TrimPrefix (s pre : Str) : Str :=
  if pre.isPrefixOf s then s.drop pre.length else s

/-- A media record for the identifier exists in the store. -/
def Store.hasRecord (st : Store) (id : Str) : Prop :=
  st.hashes (mediaPrefix ++ id) ≠ []

/-- The tag list `ListMedia` decodes from the stored record of the identifier:
what the read of the hash answers, taken through `AsStrMap`, `Split` and the
unescaping loop. -/
def Store.decodedTags (st : Store) (id : Str) : Option (List Str) :=
  (decodeTags 0 (segmentsOf (st.exec (.Hgetall (mediaPrefix ++ id))).1)).1

/-- The name `ListMedia` reads from the stored record of the identifier. -/
def Store.decodedName (st : Store) (id : Str) : Str :=
  GoMap.get ((st.exec (.Hgetall (mediaPrefix ++ id))).1.AsStrMap.1.getD []) nameField

/-- The `tags` field `ListMedia` reads from the stored record of the
identifier, the empty string when the field or the whole hash is missing. -/
def Store.decodedTagsField (st : Store) (id : Str) : Str :=
  GoMap.get ((st.exec (.Hgetall (mediaPrefix ++ id))).1.AsStrMap.1.getD []) tagsField

/-! ## `strconv.Quote`, for the text of `url.EscapeError` -/

/-- Lookup table `lowerhex` of `strconv`. -/
def lowerhex : Str := ascii "0123456789abcdef"

/-- Function `appendEscapedRune` of `strconv` on one ASCII byte, with the quote
`"`, neither ASCII-only nor graphic-only: the quote and the backslash get a
backslash, the printable bytes `0x20..0x7E` stay, the control bytes are written
as `\a \b \f \n \r \t \v` or `\x` and two hexadecimal digits. -/
def quoteASCII (c : Byte) : Str :=
  if c = 34 ∨ c = 92 then [92, c]
  else if 32 ≤ c.val ∧ c.val ≤ 126 then [c]
  else if c = 7 then ascii "\\a"
  else if c = 8 then ascii "\\b"
  else if c = 12 then ascii "\\f"
  else if c = 10 then ascii "\\n"
  else if c = 13 then ascii "\\r"
  else if c = 9 then ascii "\\t"
  else if c = 11 then ascii "\\v"
  else [92, 120, lowerhex.getD (c.val / 16) 0, lowerhex.getD (c.val % 16) 0]

/-- The loop of `appendQuotedWith`.  From the first byte `≥ 0x80` on the
output depends on UTF-8 decoding and on the tables of `unicode.IsPrint`;
`nonASCII` stands for what the loop writes from there to the end. -/
def quoteLoop (nonASCII : Str → Str) : Str → Str
  | [] => []
  | c :: rest =>
    if 128 ≤ c.val then nonASCII (c :: rest) else quoteASCII c ++ quoteLoop nonASCII rest

/-- Function `strconv.Quote`. -/
def strconvQuote (nonASCII : Str → Str) (s : Str) : Str :=
  [34] ++ quoteLoop nonASCII s ++ [34]

/-! ## Sample values -/

/-- A sample identifier, `abababab-abab-abab-abab-abababababab`. -/
def sampleUUID : UUID := { bytes := List.replicate 16 171, size := rfl }

/-- A second sample identifier, `cdcdcdcd-cdcd-cdcd-cdcd-cdcdcdcdcdcd`. -/
def otherUUID : UUID := { bytes := List.replicate 16 205, size := rfl }

/-- A sample presigned request. -/
def sampleRequest : PresignedHTTPRequest :=
  { URL := ascii "http://test/mybucket/key1", Method := ascii "PUT",
    SignedHeader := [(ascii "X-Amz-Security-Token", [ascii "token"])] }

/-- The endpoint `http://test` of the unit tests. -/
def sampleEndpoint : URL := { Scheme := ascii "http", Host := ascii "test" }

/-- The service of the unit tests over the fault-free model store. -/
def sampleService (u : UUID) : mediaService Store :=
  modelService (ascii "mybucket") sampleEndpoint noFaults (u, none) (some sampleRequest, none)

/-- The store of the integration test after `tag1`, `media1` and `media2`. -/
def sampleStore : Store :=
  ((sampleService otherUUID).CreateMedia
    ((sampleService sampleUUID).CreateMedia
      ((sampleService sampleUUID).CreateTag Store.empty { Name := ascii "tag1" }).2
      { Name := ascii "media1", Tags := [ascii "tag1", ascii "tag2"] }).2
    { Name := ascii "media2", Tags := [ascii "tag2", ascii "ta,g3"] }).2

/-- The media created on the way to `sampleStore`. -/
def sampleHistory : List Created :=
  [{ id := sampleUUID.String,
     params := { Name := ascii "media1", Tags := [ascii "tag1", ascii "tag2"] } },
   { id := otherUUID.String,
     params := { Name := ascii "media2", Tags := [ascii "tag2", ascii "ta,g3"] } }]

/-- The service of the unit test `ListMedia/happy path`: the index read
answers `key1`, `key2`, the batch answers two field maps. -/
def happyPathService : mediaService Unit :=
  scriptedService (ascii "mybucket") sampleEndpoint (sampleUUID, none) (some sampleRequest, none)
    (.array false [ascii "key1", ascii "key2"])
    [.map [(nameField, ascii "name1"), (tagsField, ascii "tag1,tag2")],
     .map [(nameField, ascii "name2"), (tagsField, ascii "tag2,ta%2Cg3")]]

/-- The result the unit test `ListMedia/happy path` expects. -/
def happyPathRecords : List MediaRecord :=
  [{ Key := ascii "key1", Name := ascii "name1",
     URL := { Scheme := ascii "http", Host := ascii "test", Path := ascii "/mybucket/key1" },
     Tags := [ascii "tag1", ascii "tag2"] },
   { Key := ascii "key2", Name := ascii "name2",
     URL := { Scheme := ascii "http", Host := ascii "test", Path := ascii "/mybucket/key2" },
     Tags := [ascii "tag2", ascii "ta,g3"] }]

/-- The service of the unit test `ListMedia/it fails if decoding tags fails`:
the second record has the tags field `tag2,tag3%`. -/
def badTagService : mediaService Unit :=
  scriptedService (ascii "mybucket") sampleEndpoint (sampleUUID, none) (some sampleRequest, none)
    (.array false [ascii "key1", ascii "key2"])
    [.map [(nameField, ascii "name1"), (tagsField, ascii "tag1,tag2")],
     .map [(nameField, ascii "name2"), (tagsField, ascii "tag2,tag3%")]]

/-- The error the unit tests inject, `assert.AnError`. -/
def sampleError : GoError := .base (ascii "assert.AnError general error for testing")

/-- A fault at batch position 2 only: the set-add into the index of the first
tag fails. -/
def faultAtTwo : Nat → Option GoError := fun i => if i = 2 then some sampleError else none

/-- The service of the unit tests over the model store with `faultAtTwo`. -/
def faultyService : mediaService Store :=
  modelService (ascii "mybucket") sampleEndpoint faultAtTwo (sampleUUID, none)
    (some sampleRequest, none)

/-- The parameters of the unit test `CreateMedia/happy path`. -/
def sampleParams : CreateMediaParams :=
  { Name := ascii "name1", Tags := [ascii "tag1", ascii "tag2"] }

/-- The service of the unit test `CreateMedia/it fails if generating UUID
fails`, over the model store. -/
def failingGeneratorService : mediaService Store :=
  modelService (ascii "bucket") {} noFaults (sampleUUID, some sampleError)
    (some sampleRequest, none)

/-- The service of the unit test `CreateMedia/it fails if presigning fails`,
over the model store. -/
def failingPresignService : mediaService Store :=
  modelService (ascii "bucket") {} noFaults (sampleUUID, none) (none, some sampleError)

/-- The service of the unit test `ListMedia/it fails if redis fails`: the
index read answers with an error. -/
def failingIndexService : mediaService Unit :=
  scriptedService [] {} (sampleUUID, none) (some sampleRequest, none) (.failure sampleError) []

/-- A service whose batch answers a good record, then a store error, then a
reply that is not a field map. -/
def failingRecordService : mediaService Unit :=
  scriptedService (ascii "mybucket") sampleEndpoint (sampleUUID, none) (some sampleRequest, none)
    (.array false [ascii "key1", ascii "key2", ascii "key3"])
    [.map [(nameField, ascii "name1"), (tagsField, ascii "tag1,tag2")],
     .failure sampleError,
     .other (ascii "simple string")]

/-- The service of the unit test `ListMedia/it fails if decoding media fails`:
the second reply is a string, not a field map. -/
def notAMapService : mediaService Unit :=
  scriptedService (ascii "mybucket") sampleEndpoint (sampleUUID, none) (some sampleRequest, none)
    (.array false [ascii "key1", ascii "key2"])
    [.map [(nameField, ascii "name1"), (tagsField, ascii "tag1,tag2")],
     .other (ascii "simple string")]

/-- The parameters of a media created with no tag. -/
def emptyTagsParams : CreateMediaParams := { Name := ascii "media0", Tags := [] }

/-- The empty store after one successful `CreateMedia` with no tag. -/
def emptyTagsStore : Store :=
  ((sampleService sampleUUID).CreateMedia Store.empty emptyTagsParams).2

/-- The media created on the way to `emptyTagsStore`. -/
def emptyTagsHistory : List Created := [{ id := sampleUUID.String, params := emptyTagsParams }]

/-- A service whose batch answers the record with the tags field
`tag2,tag3%` first and a good record second. -/
def badTagFirstService : mediaService Unit :=
  scriptedService (ascii "mybucket") sampleEndpoint (sampleUUID, none) (some sampleRequest, none)
    (.array false [ascii "key1", ascii "key2"])
    [.map [(nameField, ascii "name2"), (tagsField, ascii "tag2,tag3%")],
     .map [(nameField, ascii "name1"), (tagsField, ascii "tag1,tag2")]]

/-- A store whose index of `tag1` lists an identifier that has no stored hash:
the empty store after the one set-add. -/
def danglingIndexStore : Store :=
  (Store.empty.exec (.Sadd (tagsPrefix ++ ascii "tag1") (ascii "key1"))).2

/-- What `ListMedia` returns for `tag1` on `danglingIndexStore`: one record
with an empty name and the tag list holding the empty string. -/
def danglingRecords : List MediaRecord :=
  [{ Key := ascii "key1", Name := ascii "",
     URL := { Scheme := ascii "http", Host := ascii "test", Path := ascii "/mybucket/key1" },
     Tags := [ascii ""] }]

/-- A third sample identifier, `efefefef-efef-efef-efef-efefefefefef`. -/
def thirdUUID : UUID := { bytes := List.replicate 16 239, size := rfl }

/-- A store in which every command succeeds and whose index of the tag `a`
lists the identifier `zz`, the record of `zz` having the tags field `%`. -/
def corruptStore : Store :=
  ((Store.empty.exec (.Sadd (tagsPrefix ++ ascii "a") (ascii "zz"))).2.exec
    (.Hset (mediaPrefix ++ ascii "zz") [(tagsField, ascii "%")])).2

/-! ## Properties: bytes -/

set_option maxRecDepth 100000 in
/-- A byte `QueryEscape` leaves alone is none of space, `%`, `+`, `,`. -/
theorem shouldEscape_false (c : Byte) (h : shouldEscape c = false) :
    c ≠ 32 ∧ c ≠ 37 ∧ c ≠ 43 ∧ c ≠ 44 := by
  revert c
  decide

set_option maxRecDepth 100000 in
/-- The two digits written for a byte are hexadecimal digits, are not commas,
and `unhex` puts the byte together again. -/
theorem upperhex_unhex (c : Byte) :
    ishex (upperhex.getD (c.val / 16) 0) = true ∧ ishex (upperhex.getD (c.val % 16) 0) = true ∧
    (Fin.ofNat (((unhex (upperhex.getD (c.val / 16) 0)).val * 16 % 256) |||
        (unhex (upperhex.getD (c.val % 16) 0)).val) : Byte) = c ∧
    upperhex.getD (c.val / 16) 0 ≠ 44 ∧ upperhex.getD (c.val % 16) 0 ≠ 44 := by
  revert c
  decide

theorem shouldEscape_space : shouldEscape 32 = true := by decide

/-! ## The percent codec -/

/-- The three shapes of what `escape` writes for one byte. -/
theorem escapeByte_cases (c : Byte) :
    (c = 32 ∧ escapeByte c = [43]) ∨
    (∃ a b, escapeByte c = [37, a, b] ∧ ishex a = true ∧ ishex b = true ∧
      (Fin.ofNat (((unhex a).val * 16 % 256) ||| (unhex b).val) : Byte) = c ∧ a ≠ 44 ∧ b ≠ 44) ∨
    (escapeByte c = [c] ∧ shouldEscape c = false ∧ c ≠ 37 ∧ c ≠ 43 ∧ c ≠ 44) := by
  by_cases h32 : c = 32
  · exact Or.inl ⟨h32, by rw [escapeByte, if_pos h32]⟩
  · by_cases hc : shouldEscape c = true
    · have hx := upperhex_unhex c
      exact Or.inr (Or.inl ⟨_, _, by rw [escapeByte, if_neg h32, if_pos hc], hx⟩)
    · have hc2 : shouldEscape c = false := by simpa using hc
      have hk := shouldEscape_false c hc2
      exact Or.inr (Or.inr ⟨by rw [escapeByte, if_neg h32, if_neg hc], hc2, hk.2⟩)

theorem escapeCount_zero (s : Str) (h : escapeCount s = (0, 0)) :
    ∀ c ∈ s, shouldEscape c = false := by
  induction s with
  | nil => simp
  | cons c rest ih =>
    rw [escapeCount] at h
    rcases hr : escapeCount rest with ⟨a, b⟩
    rw [hr] at h
    by_cases hc : shouldEscape c = true
    · by_cases h32 : c = 32
      · simp [h32, shouldEscape_space] at h
      · simp [hc, h32] at h
    · simp only [hc, Bool.false_eq_true, if_false, Prod.mk.injEq] at h
      intro x hx
      rcases List.mem_cons.1 hx with rfl | hx
      · simpa using hc
      · exact ih (by rw [hr, h.1, h.2]) x hx

theorem flatMap_escapeByte_of_keep (s : Str) (h : ∀ c ∈ s, shouldEscape c = false) :
    s.flatMap escapeByte = s := by
  induction s with
  | nil => rfl
  | cons c rest ih =>
    have hc := h c (List.mem_cons_self _ _)
    have h32 := (shouldEscape_false c hc).1
    rw [List.flatMap_cons, ih (fun x hx => h x (List.mem_cons_of_mem _ hx))]
    rw [escapeByte, if_neg h32, if_neg (by simp [hc])]
    rfl

/-- What `QueryEscape` computes: the early return changes nothing. -/
theorem QueryEscape_eq (s : Str) : QueryEscape s = s.flatMap escapeByte := by
  unfold QueryEscape
  rcases hr : escapeCount s with ⟨a, b⟩
  by_cases h : a = 0 ∧ b = 0
  · simp only [h, and_self, if_true]
    rcases h with ⟨rfl, rfl⟩
    exact (flatMap_escapeByte_of_keep s (escapeCount_zero s hr)).symm
  · simp only [h, if_false]

theorem escapeByte_no_comma (c : Byte) : (44 : Byte) ∉ escapeByte c := by
  rcases escapeByte_cases c with ⟨_, h⟩ | ⟨a, b, h, _, _, _, ha, hb⟩ | ⟨h, _, _, _, hc⟩
  · rw [h]; decide
  · rw [h]
    simp only [List.mem_cons, List.mem_nil_iff, or_false, not_or]
    exact ⟨by decide, fun e => ha e.symm, fun e => hb e.symm⟩
  · rw [h]
    simp only [List.mem_singleton]
    exact fun e => hc e.symm

/-- No escaped tag contains a comma. -/
theorem QueryEscape_no_comma (s : Str) : (44 : Byte) ∉ QueryEscape s := by
  rw [QueryEscape_eq]
  intro h
  rcases List.mem_flatMap.1 h with ⟨c, _, hc⟩
  exact escapeByte_no_comma c hc

/-- The first loop of `unescape` accepts whatever `escape` wrote. -/
theorem unescapeCheck_escape (s : Str) :
    ∀ n hasPlus, ∃ n1 hasPlus1,
      unescapeCheck (s.flatMap escapeByte) n hasPlus = .ok (n1, hasPlus1) := by
  induction s with
  | nil => intro n hp; exact ⟨n, hp, rfl⟩
  | cons c rest ih =>
    intro n hp
    rw [List.flatMap_cons]
    rcases escapeByte_cases c with ⟨_, h⟩ | ⟨a, b, h, ha, hb, _⟩ | ⟨h, _, h37, h43, _⟩
    · rw [h, List.singleton_append, unescapeCheck.eq_def]
      simpa using ih n true
    · rw [h, unescapeCheck.eq_def]
      simpa [ha, hb] using ih (n + 1) hp
    · rw [h, List.singleton_append, unescapeCheck.eq_def]
      simpa [h37, h43] using ih n hp

/-- The second loop of `unescape` undoes `escape`. -/
theorem unescapeBuild_escape (s : Str) : unescapeBuild (s.flatMap escapeByte) = s := by
  induction s with
  | nil => rfl
  | cons c rest ih =>
    rw [List.flatMap_cons]
    rcases escapeByte_cases c with ⟨h32, h⟩ | ⟨a, b, h, _, _, hab, _⟩ | ⟨h, _, h37, h43, _⟩
    · rw [h, List.singleton_append, unescapeBuild.eq_def]
      simp [ih, h32]
    · rw [h, unescapeBuild.eq_def]
      simp [ih, hab]
    · rw [h, List.singleton_append, unescapeBuild.eq_def]
      simp [h37, h43, ih]

/-- The counters of the first loop only grow, and when they did not move the
input holds neither `%` nor `+`, so the second loop would copy it. -/
theorem unescapeCheck_fixed (s : Str) (n : Nat) (hasPlus : Bool) :
    ∀ n1 hasPlus1, unescapeCheck s n hasPlus = .ok (n1, hasPlus1) →
      n ≤ n1 ∧ (hasPlus = true → hasPlus1 = true) ∧
        (n1 = n → hasPlus1 = false → unescapeBuild s = s) := by
  induction s, n, hasPlus using unescapeCheck.induct with
  | case1 n hp =>
    intro n1 hp1 h
    simp only [unescapeCheck, Except.ok.injEq, Prod.mk.injEq] at h
    exact ⟨by omega, fun h2 => by rw [← h.2]; exact h2, fun _ _ => rfl⟩
  | case2 n hp a b rest2 hab ih =>
    intro n1 hp1 h
    rw [unescapeCheck.eq_def] at h
    simp only [hab, if_true] at h
    have := ih n1 hp1 h
    exact ⟨by omega, this.2.1, fun h1 => by omega⟩
  | case3 n hp a b rest2 hab =>
    intro n1 hp1 h
    rw [unescapeCheck.eq_def] at h
    simp [hab] at h
  | case4 rest n hp hrest =>
    intro n1 hp1 h
    match rest, hrest, h with
    | [], _, h => simp [unescapeCheck] at h
    | [a], _, h => simp [unescapeCheck] at h
    | a :: b :: r, hrest, _ => exact (hrest a b r rfl).elim
  | case5 rest n hp _ ih =>
    intro n1 hp1 h
    rw [unescapeCheck.eq_def] at h
    simp only [show ¬ ((43 : Byte) = 37) by decide, if_false, if_true] at h
    have := ih n1 hp1 h
    exact ⟨this.1, fun _ => this.2.1 rfl, fun _ h2 => by simp [this.2.1 rfl] at h2⟩
  | case6 c rest n hp h37 h43 ih =>
    intro n1 hp1 h
    rw [unescapeCheck.eq_def] at h
    simp only [h37, h43, if_false] at h
    have := ih n1 hp1 h
    refine ⟨this.1, this.2.1, fun h1 h2 => ?_⟩
    rw [unescapeBuild.eq_def]
    simp [h37, h43, this.2.2 h1 h2]

/-- Percent codec round trip on one tag. -/
theorem QueryUnescape_QueryEscape (s : Str) : QueryUnescape (QueryEscape s) = (s, none) := by
  rw [QueryEscape_eq]
  unfold QueryUnescape
  obtain ⟨n1, hp1, h⟩ := unescapeCheck_escape s 0 false
  rw [h]
  by_cases hz : n1 = 0 ∧ hp1 = false
  · have := (unescapeCheck_fixed _ 0 false n1 hp1 h).2.2 hz.1 hz.2
    simp only [hz, and_self, if_true]
    rw [← this, unescapeBuild_escape]
  · simp only [hz, if_false, unescapeBuild_escape]

/-! ## Splitting and joining on the comma -/

theorem ascii_comma : ascii "," = [44] := by decide

theorem indexComma_of_not_mem (a : Str) (h : (44 : Byte) ∉ a) : indexComma a = none := by
  induction a with
  | nil => rfl
  | cons c rest ih =>
    have hc : c ≠ 44 := fun e => h (e ▸ List.mem_cons_self _ _)
    have hr : (44 : Byte) ∉ rest := fun e => h (List.mem_cons_of_mem _ e)
    simp [indexComma, hc, ih hr]

theorem indexComma_append (a b : Str) (h : (44 : Byte) ∉ a) :
    indexComma (a ++ 44 :: b) = some a.length := by
  induction a with
  | nil => simp [indexComma]
  | cons c rest ih =>
    have hc : c ≠ 44 := fun e => h (e ▸ List.mem_cons_self _ _)
    have hr : (44 : Byte) ∉ rest := fun e => h (List.mem_cons_of_mem _ e)
    simp [indexComma, hc, ih hr]

theorem countComma_append (a b : Str) (h : (44 : Byte) ∉ a) :
    countComma (a ++ 44 :: b) = countComma b + 1 := by
  unfold countComma
  rw [List.count_append, List.count_cons_self, List.count_eq_zero_of_not_mem h]
  omega

theorem splitLoop_of_not_mem (n : Nat) (a : Str) (h : (44 : Byte) ∉ a) : splitLoop n a = [a] := by
  cases n with
  | zero => rfl
  | succ n => simp [splitLoop, indexComma_of_not_mem a h]

theorem Split_of_not_mem (a : Str) (h : (44 : Byte) ∉ a) : Split a = [a] :=
  splitLoop_of_not_mem _ a h

/-- `Split` cuts at the first comma and goes on with what follows it. -/
theorem Split_append (a b : Str) (h : (44 : Byte) ∉ a) : Split (a ++ 44 :: b) = a :: Split b := by
  unfold Split
  rw [countComma_append a b h, splitLoop, indexComma_append a b h]
  simp

/-- `Split` undoes `Join` on a non-empty list of comma-free strings. -/
theorem Split_Join (xs : List Str) (hne : xs ≠ []) (h : ∀ x ∈ xs, (44 : Byte) ∉ x) :
    Split (Join xs (ascii ",")) = xs := by
  induction xs with
  | nil => exact absurd rfl hne
  | cons x rest ih =>
    cases rest with
    | nil => exact Split_of_not_mem x (h x (List.mem_cons_self _ _))
    | cons y rest =>
      rw [Join, ascii_comma, List.append_assoc, List.singleton_append,
        Split_append x _ (h x (List.mem_cons_self _ _)), ← ascii_comma,
        ih (List.cons_ne_nil _ _) (fun z hz => h z (List.mem_cons_of_mem _ hz))]

/-- The inner loop of `ListMedia` decodes what `CreateMedia` encoded, from any
starting position. -/
theorem decodeTags_escape (tags : List Str) (i : Nat) :
    decodeTags i (tags.map QueryEscape) = (some tags, none) := by
  induction tags generalizing i with
  | nil => rfl
  | cons t rest ih =>
    rw [List.map_cons, decodeTags, QueryUnescape_QueryEscape]
    simp only [ih (i + 1)]

/-- Tag-list codec round trip, the fact the catalog properties rest on. -/
theorem decode_encode (tags : List Str) (hne : tags ≠ []) :
    decodeTags 0 (Split (Join (tags.map QueryEscape) (ascii ","))) = (some tags, none) := by
  rw [Split_Join _ (by simpa using hne), decodeTags_escape]
  intro x hx
  rcases List.mem_map.1 hx with ⟨t, _, rfl⟩
  exact QueryEscape_no_comma t

/-! ## The model store, command by command -/

theorem tagsKey_ne_tagsPrefix (t : Str) : tagsPrefix ++ t ≠ tagsKey := by
  intro h
  have := congrArg List.length h
  simp [tagsPrefix, tagsKey, ascii] at this

theorem tagsPrefix_inj (t1 t2 : Str) : tagsPrefix ++ t1 = tagsPrefix ++ t2 ↔ t1 = t2 :=
  List.append_right_inj _

theorem mediaPrefix_inj (a b : Str) : mediaPrefix ++ a = mediaPrefix ++ b ↔ a = b :=
  List.append_right_inj _

theorem nameField_ne_tagsField : nameField ≠ tagsField := by decide

theorem exec_Sadd_sets (st : Store) (key member : Str) (k : Str) :
    (st.exec (.Sadd key member)).2.sets k =
      if k = key ∧ member ∉ st.sets key then st.sets key ++ [member] else st.sets k := by
  unfold Store.exec
  by_cases hm : member ∈ st.sets key
  · simp [hm]
  · by_cases hk : k = key
    · subst hk; simp [hm]
    · simp [hm, hk, Function.update_noteq hk]

theorem exec_Sadd_hashes (st : Store) (key member : Str) :
    (st.exec (.Sadd key member)).2.hashes = st.hashes := by
  unfold Store.exec
  by_cases hm : member ∈ st.sets key <;> simp [hm]

theorem exec_Sadd_Error (st : Store) (key member : Str) :
    (st.exec (.Sadd key member)).1 = .other (ascii "int64") := rfl

theorem exec_Hset (st : Store) (key : Str) (fvs : List (Str × Str)) :
    (st.exec (.Hset key fvs)).1 = .other (ascii "int64") ∧
    (st.exec (.Hset key fvs)).2.sets = st.sets ∧
    (st.exec (.Hset key fvs)).2.hashes =
      Function.update st.hashes key (fvs.foldl hsetField (st.hashes key)) :=
  ⟨rfl, rfl, rfl⟩

theorem run_nil (faults : Nat → Option GoError) (i : Nat) (st : Store) :
    Store.run faults i st [] = ([], st) := rfl

theorem run_cons_noFaults (i : Nat) (st : Store) (cmd : Cmd) (cmds : List Cmd) :
    Store.run noFaults i st (cmd :: cmds) =
      ((st.exec cmd).1 :: (Store.run noFaults (i + 1) (st.exec cmd).2 cmds).1,
        (Store.run noFaults (i + 1) (st.exec cmd).2 cmds).2) := by
  rw [Store.run]
  simp [noFaults]

theorem Do_noFaults (st : Store) (cmd : Cmd) : (storeClient noFaults).Do st cmd = st.exec cmd := by
  simp [storeClient, run_cons_noFaults, run_nil]

/-- No command of the fault-free model store answers with an error. -/
theorem exec_Error (st : Store) (cmd : Cmd) : (st.exec cmd).1.Error = none := by
  cases cmd <;> rfl

theorem checkResponses_none (resps : List RedisResult) (h : ∀ r ∈ resps, r.Error = none) (i : Nat) :
    checkResponses i resps = none := by
  induction resps generalizing i with
  | nil => rfl
  | cons r rest ih =>
    rw [checkResponses, h r (List.mem_cons_self _ _)]
    exact ih (fun x hx => h x (List.mem_cons_of_mem _ hx)) (i + 1)

theorem run_noFaults_Error (cmds : List Cmd) (i : Nat) (st : Store) :
    ∀ r ∈ (Store.run noFaults i st cmds).1, r.Error = none := by
  induction cmds generalizing i st with
  | nil => simp [run_nil]
  | cons cmd rest ih =>
    rw [run_cons_noFaults]
    intro r hr
    rcases List.mem_cons.1 hr with rfl | hr
    · exact exec_Error st cmd
    · exact ih _ _ r hr

/-- `CreateTag` on the fault-free model store: it succeeds and runs one `SADD`. -/
theorem CreateTag_model (bucket : Str) (endpointURL : URL) (uuid : UUID × Option GoError)
    (presigned : Option PresignedHTTPRequest × Option GoError) (st : Store)
    (params : CreateTagParams) :
    (modelService bucket endpointURL noFaults uuid presigned).CreateTag st params =
      (none, (st.exec (.Sadd tagsKey params.Name)).2) := by
  simp [mediaService.CreateTag, modelService, Do_noFaults, exec_Sadd_Error, RedisResult.Error]

/-- `CreateMedia` on the fault-free model store, when the generator and the
presigner succeed: it returns the presigned request and runs its batch. -/
theorem CreateMedia_model (bucket : Str) (endpointURL : URL) (u : UUID)
    (request : Option PresignedHTTPRequest) (st : Store) (params : CreateMediaParams) :
    (modelService bucket endpointURL noFaults (u, none) (request, none)).CreateMedia st params =
      ((request, none), (Store.run noFaults 0 st (createMediaCmds params u.String)).2) := by
  simp only [mediaService.CreateMedia, modelService, storeClient]
  rw [checkResponses_none _ (run_noFaults_Error _ 0 st) 0]

/-! ## The batch of `CreateMedia` on the model store -/

/-- The set-adds of a batch, for identifier `id`. -/
theorem saddPairs_hashes (id : Str) (tags : List Str) (i : Nat) (st : Store) :
    (Store.run noFaults i st
      (tags.flatMap (fun tag => [Cmd.Sadd tagsKey tag, Cmd.Sadd (tagsPrefix ++ tag) id]))).2.hashes =
      st.hashes := by
  induction tags generalizing i st with
  | nil => rfl
  | cons tag rest ih =>
    rw [List.flatMap_cons, List.cons_append, List.singleton_append, run_cons_noFaults,
      run_cons_noFaults]
    simp only [ih, exec_Sadd_hashes]

theorem saddPairs_index (id : Str) (tags : List Str) (i : Nat) (st : Store) (t : Str) :
    (Store.run noFaults i st
      (tags.flatMap (fun tag => [Cmd.Sadd tagsKey tag, Cmd.Sadd (tagsPrefix ++ tag) id]))).2.sets
        (tagsPrefix ++ t) =
      if t ∈ tags ∧ id ∉ st.sets (tagsPrefix ++ t) then st.sets (tagsPrefix ++ t) ++ [id]
      else st.sets (tagsPrefix ++ t) := by
  induction tags generalizing i st with
  | nil => simp [run_nil]
  | cons tag rest ih =>
    rw [List.flatMap_cons, List.cons_append, List.singleton_append, run_cons_noFaults,
      run_cons_noFaults]
    simp only [ih, exec_Sadd_sets, tagsKey_ne_tagsPrefix, false_and, if_false, tagsPrefix_inj]
    by_cases ht : t = tag
    · subst ht
      by_cases hid : id ∈ st.sets (tagsPrefix ++ t)
      · simp [hid]
      · simp [hid]
    · simp [ht]

theorem saddPairs_global (id : Str) (tags : List Str) (i : Nat) (st : Store) (x : Str) :
    x ∈ (Store.run noFaults i st
      (tags.flatMap (fun tag => [Cmd.Sadd tagsKey tag, Cmd.Sadd (tagsPrefix ++ tag) id]))).2.sets
        tagsKey ↔ x ∈ st.sets tagsKey ∨ x ∈ tags := by
  induction tags generalizing i st with
  | nil => simp [run_nil]
  | cons tag rest ih =>
    rw [List.flatMap_cons, List.cons_append, List.singleton_append, run_cons_noFaults,
      run_cons_noFaults]
    simp only [ih, exec_Sadd_sets, (tagsKey_ne_tagsPrefix _).symm, false_and, if_false, true_and,
      List.mem_cons]
    by_cases hm : tag ∈ st.sets tagsKey
    · simp only [hm, not_true_eq_false, if_false]
      constructor
      · rintro (h | h)
        · exact Or.inl h
        · exact Or.inr (Or.inr h)
      · rintro (h | h | h)
        · exact Or.inl h
        · exact Or.inl (h ▸ hm)
        · exact Or.inr h
    · simp only [hm, not_false_eq_true, if_true, List.mem_append, List.mem_singleton]
      tauto

/-- The state a fault-free batch of `CreateMedia` leaves. -/
theorem createMediaCmds_run (params : CreateMediaParams) (id : Str) (st : Store) :
    let st1 := (Store.run noFaults 0 st (createMediaCmds params id)).2
    st1.hashes = Function.update st.hashes (mediaPrefix ++ id)
        ([(nameField, params.Name), (tagsField, Join (params.Tags.map QueryEscape) (ascii ","))].foldl
          hsetField (st.hashes (mediaPrefix ++ id))) ∧
    (∀ t, st1.sets (tagsPrefix ++ t) =
      if t ∈ params.Tags ∧ id ∉ st.sets (tagsPrefix ++ t) then st.sets (tagsPrefix ++ t) ++ [id]
      else st.sets (tagsPrefix ++ t)) ∧
    (∀ x, x ∈ st1.sets tagsKey ↔ x ∈ st.sets tagsKey ∨ x ∈ params.Tags) := by
  simp only [createMediaCmds, run_cons_noFaults]
  refine ⟨?_, ?_, ?_⟩
  · rw [saddPairs_hashes]; rfl
  · intro t; rw [saddPairs_index]; rfl
  · intro x; rw [saddPairs_global]; rfl

theorem hsetField_fresh (name tags : Str) :
    [(nameField, name), (tagsField, tags)].foldl hsetField [] =
      [(nameField, name), (tagsField, tags)] := by
  simp [hsetField, nameField_ne_tagsField]

/-! ## Histories keep the store consistent -/

theorem Consistent.createTag {h : List Created} {st : Store} (hc : Consistent h st) (name : Str) :
    Consistent h (st.exec (.Sadd tagsKey name)).2 where
  ids_nodup := hc.ids_nodup
  index := by
    intro t
    rw [exec_Sadd_sets]
    simp only [tagsKey_ne_tagsPrefix, false_and, if_false]
    exact hc.index t
  record := by
    intro m hm
    rw [exec_Sadd_hashes]
    exact hc.record m hm
  unused := by
    intro id hid
    rw [exec_Sadd_hashes]
    exact hc.unused id hid
  global := by
    intro m hm t ht
    rw [exec_Sadd_sets]
    have := hc.global m hm t ht
    by_cases hn : name ∈ st.sets tagsKey
    · simpa [hn] using this
    · simp [hn, this]

theorem Consistent.createMedia {h : List Created} {st : Store} (hc : Consistent h st)
    (id : Str) (params : CreateMediaParams) (hfresh : id ∉ h.map Created.id) :
    Consistent (h ++ [{ id := id, params := params }])
      (Store.run noFaults 0 st (createMediaCmds params id)).2 := by
  obtain ⟨hh, hi, hg⟩ := createMediaCmds_run params id st
  have hnew : ∀ t, id ∉ st.sets (tagsPrefix ++ t) := by
    intro t hmem
    rw [hc.index t] at hmem
    rcases List.mem_map.1 hmem with ⟨m, hm, rfl⟩
    exact hfresh (List.mem_map_of_mem _ (List.mem_filter.1 hm).1)
  refine ⟨?_, ?_, ?_, ?_, ?_⟩
  · rw [List.map_append, List.nodup_append]
    refine ⟨hc.ids_nodup, List.nodup_singleton _, ?_⟩
    intro a ha hb
    simp only [List.map_cons, List.map_nil, List.mem_singleton] at hb
    exact hfresh (hb ▸ ha)
  · intro t
    rw [hi t, hc.index t, List.filter_append, List.map_append]
    by_cases ht : t ∈ params.Tags
    · have := hnew t
      rw [hc.index t] at this
      simp [ht, this, List.filter_cons]
    · simp [ht, List.filter_cons]
  · intro m hm
    rw [hh]
    rcases List.mem_append.1 hm with hm | hm
    · have hne : m.id ≠ id := fun e => hfresh (e ▸ List.mem_map_of_mem _ hm)
      rw [Function.update_noteq (fun e => hne ((mediaPrefix_inj _ _).1 e))]
      exact hc.record m hm
    · rw [List.mem_singleton] at hm
      subst hm
      rw [Function.update_same, hc.unused _ hfresh, hsetField_fresh]
  · intro id2 hid2
    rw [List.map_append, List.mem_append, not_or] at hid2
    have hne : id2 ≠ id := fun e => hid2.2 (by simp [e])
    rw [hh, Function.update_noteq (fun e => hne ((mediaPrefix_inj _ _).1 e))]
    exact hc.unused id2 hid2.1
  · intro m hm t ht
    rw [hg]
    rcases List.mem_append.1 hm with hm | hm
    · exact Or.inl (hc.global m hm t ht)
    · rw [List.mem_singleton] at hm
      subst hm
      exact Or.inr ht

/-- Every store a history reaches is consistent with the history. -/
theorem Run.consistent {h : List Created} {st : Store} (hr : Run h st) : Consistent h st := by
  induction hr with
  | init =>
    exact ⟨List.nodup_nil, fun _ => rfl, fun _ hm => by simp at hm, fun _ _ => rfl,
      fun _ hm => by simp at hm⟩
  | createTag bucket endpointURL uuid presigned params _ ih =>
    rw [CreateTag_model]
    exact ih.createTag params.Name
  | createMedia bucket endpointURL u request params _ hfresh ih =>
    rw [CreateMedia_model]
    exact ih.createMedia u.String params hfresh

/-! ## The loop of `ListMedia` -/

theorem take_set_succ {α : Type} (l : List α) (i : Nat) (x : α) (h : i < l.length) :
    (l.set i x).take (i + 1) = l.take i ++ [x] := by
  induction l generalizing i with
  | nil => simp at h
  | cons a rest ih =>
    cases i with
    | zero => simp
    | succ i =>
      simp only [List.set_cons_succ, List.take_succ_cons, List.cons_append, List.cons.injEq,
        true_and]
      exact ih i (by simpa using h)

/-- When every response decodes, the loop fills the result with one record per
response, in order. -/
theorem listLoop_records {σ α : Type} (s : mediaService σ) (keyOf : α → Str)
    (respOf : α → RedisResult) (recOf : α → MediaRecord) (xs : List α)
    (hx : ∀ x ∈ xs, (respOf x).Error = none ∧ ∃ m tags,
      (respOf x).AsStrMap = (some m, none) ∧
      decodeTags 0 (Split (GoMap.get m tagsField)) = (some tags, none) ∧
      recOf x = s.newRecord (keyOf x) (GoMap.get m nameField) tags) :
    ∀ (ys pre : List α) (result : List MediaRecord), xs = pre ++ ys →
      result.length = xs.length →
      s.listLoop (xs.map keyOf) pre.length (ys.map respOf) result =
        .returned (some (result.take pre.length ++ ys.map recOf), none) := by
  intro ys
  induction ys with
  | nil =>
    intro pre result hxs hlen
    rw [List.append_nil] at hxs
    subst hxs
    simp [mediaService.listLoop, ← hlen]
  | cons y rest ih =>
    intro pre result hxs hlen
    have hy : y ∈ xs := by rw [hxs]; simp
    obtain ⟨he, m, tags, hm, hd, hrec⟩ := hx y hy
    have hkey : (xs.map keyOf)[pre.length]? = some (keyOf y) := by
      rw [hxs, List.map_append, List.map_cons,
        List.getElem?_append_right (by rw [List.length_map])]
      simp
    have hlt : pre.length < result.length := by
      rw [hlen, hxs]; simp
    rw [List.map_cons, mediaService.listLoop, he]
    simp only [hm, Option.getD_some, hd, hkey, hlt, if_true]
    have := ih (pre ++ [y]) (result.set pre.length (recOf y)) (by rw [hxs]; simp)
      (by rw [List.length_set]; exact hlen)
    rw [List.length_append, List.length_singleton] at this
    rw [← hrec, this, take_set_succ _ _ _ hlt]
    simp

/-- `ListMedia` once the index read has answered `keys` and the batch of
record reads has answered `resps`. -/
theorem ListMedia_unfold {σ : Type} (s : mediaService σ) (w : σ) (params : ListMediaParams)
    (r : RedisResult) (keys : List Str) (w1 : σ) (resps : List RedisResult) (w2 : σ)
    (hDo : s.rueidisClient.Do w (.Smembers (tagsPrefix ++ params.Tag)) = (r, w1))
    (hkeys : r.AsStrSlice = (some keys, none))
    (hMulti : s.rueidisClient.DoMulti w1
      (keys.map (fun key => Cmd.Hgetall (mediaPrefix ++ key))) = (resps, w2)) :
    s.ListMedia w params = (s.listLoop keys 0 resps (List.replicate keys.length {}), w2) := by
  unfold mediaService.ListMedia
  simp only [hDo, hkeys, Option.getD_some, hMulti, List.length_map]

/-- Reading the two fields back from the map `AsStrMap` builds of a record. -/
theorem record_get (name tags : Str) :
    GoMap.get ([(nameField, name), (tagsField, tags)].foldl (fun r kv => kv :: r) []) nameField =
      name ∧
    GoMap.get ([(nameField, name), (tagsField, tags)].foldl (fun r kv => kv :: r) []) tagsField =
      tags := by
  have h1 : (nameField == tagsField) = false := by decide
  constructor
  · simp [GoMap.get, List.lookup, h1]
  · simp [GoMap.get, List.lookup]

/-- `ListMedia` on a consistent store: one record per media created with the
tag, in creation order, and the store is left as it was. -/
theorem ListMedia_consistent {h : List Created} {st : Store} (hc : Consistent h st)
    (bucket : Str) (endpointURL : URL) (uuid : UUID × Option GoError)
    (presigned : Option PresignedHTTPRequest × Option GoError) (t : Str) :
    (modelService bucket endpointURL noFaults uuid presigned).ListMedia st { Tag := t } =
      (.returned (some ((h.filter (fun m => decide (t ∈ m.params.Tags))).map (fun m =>
        (modelService bucket endpointURL noFaults uuid presigned).newRecord m.id m.params.Name
          m.params.Tags)), none), st) := by
  have hrun : ∀ (ks : List Str) (i : Nat),
      Store.run noFaults i st (ks.map (fun key => Cmd.Hgetall (mediaPrefix ++ key))) =
        (ks.map (fun key => RedisResult.map (st.hashes (mediaPrefix ++ key))), st) := by
    intro ks
    induction ks with
    | nil => intro i; rfl
    | cons k rest ih =>
      intro i
      have hst : (st.exec (Cmd.Hgetall (mediaPrefix ++ k))).2 = st := rfl
      rw [List.map_cons, run_cons_noFaults, hst, ih]
      rfl
  have hDo : (modelService bucket endpointURL noFaults uuid presigned).rueidisClient.Do st
      (.Smembers (tagsPrefix ++ t)) = (.array true (st.sets (tagsPrefix ++ t)), st) :=
    Do_noFaults st _
  rw [ListMedia_unfold _ st { Tag := t } _ _ st _ st hDo rfl (hrun _ 0), hc.index t]
  have := listLoop_records (modelService bucket endpointURL noFaults uuid presigned)
    Created.id (fun m => RedisResult.map (st.hashes (mediaPrefix ++ m.id)))
    (fun m => (modelService bucket endpointURL noFaults uuid presigned).newRecord m.id
      m.params.Name m.params.Tags)
    (h.filter (fun m => decide (t ∈ m.params.Tags)))
    (by
      intro m hm
      have hmem := (List.mem_filter.1 hm).1
      have ht : t ∈ m.params.Tags := by simpa using (List.mem_filter.1 hm).2
      refine ⟨rfl, _, m.params.Tags, rfl, ?_, ?_⟩
      · rw [hc.record m hmem, (record_get _ _).2]
        exact decode_encode _ (List.ne_nil_of_mem ht)
      · rw [hc.record m hmem, (record_get _ _).1])
    (h.filter (fun m => decide (t ∈ m.params.Tags))) []
    (List.replicate (h.filter (fun m => decide (t ∈ m.params.Tags))).length {})
    rfl (by simp)
  rw [List.length_nil, List.take_zero, List.nil_append] at this
  rw [List.map_map, List.length_map]
  exact congrArg (fun o => (o, st)) this

/-! ## Round trip and filtering -/

/-- C2. Tag-list codec round trip: for a tag list with at least one tag, the
string `CreateMedia` puts in the `tags` field of its hash-write is the tags
escaped and joined with commas; splitting it on commas and unescaping every
segment as `ListMedia` does succeeds on every segment and gives the original
list back; no escaped tag contains a comma and there are as many segments as
tags. -/
theorem C2_tag_list_codec_round_trip (name id : Str) (tags : List Str) (hne : tags ≠ []) :
    ∃ field,
      (createMediaCmds { Name := name, Tags := tags } id).head? =
        some (.Hset (mediaPrefix ++ id) [(nameField, name), (tagsField, field)]) ∧
      field = Join (tags.map QueryEscape) (ascii ",") ∧
      decodeTags 0 (Split field) = (some tags, none) ∧
      (∀ seg ∈ Split field, (QueryUnescape seg).2 = none) ∧
      (Split field).map (fun seg => (QueryUnescape seg).1) = tags ∧
      (∀ t ∈ tags, (44 : Byte) ∉ QueryEscape t) ∧
      (Split field).length = tags.length := by
  have hsplit : Split (Join (tags.map QueryEscape) (ascii ",")) = tags.map QueryEscape := by
    apply Split_Join _ (by simpa using hne)
    intro x hx
    rcases List.mem_map.1 hx with ⟨t, _, rfl⟩
    exact QueryEscape_no_comma t
  refine ⟨_, rfl, rfl, decode_encode tags hne, ?_, ?_, fun t _ => QueryEscape_no_comma t, ?_⟩
  · intro seg hseg
    rw [hsplit] at hseg
    rcases List.mem_map.1 hseg with ⟨t, _, rfl⟩
    rw [QueryUnescape_QueryEscape]
  · rw [hsplit, List.map_map]
    conv_rhs => rw [← List.map_id tags]
    apply List.map_congr_left
    intro t _
    simp [QueryUnescape_QueryEscape]
  · rw [hsplit, List.length_map]

/-- Witness of C2 at the tags `t2` and `ta,g3` of the integration test. -/
theorem C2_tag_list_codec_round_trip_witness :
    [ascii "t2", ascii "ta,g3"] ≠ [] ∧
    ∃ field,
      (createMediaCmds { Name := ascii "media2", Tags := [ascii "t2", ascii "ta,g3"] }
          sampleUUID.String).head? =
        some (.Hset (mediaPrefix ++ sampleUUID.String)
          [(nameField, ascii "media2"), (tagsField, field)]) ∧
      field = Join ([ascii "t2", ascii "ta,g3"].map QueryEscape) (ascii ",") ∧
      decodeTags 0 (Split field) = (some [ascii "t2", ascii "ta,g3"], none) ∧
      (∀ seg ∈ Split field, (QueryUnescape seg).2 = none) ∧
      (Split field).map (fun seg => (QueryUnescape seg).1) = [ascii "t2", ascii "ta,g3"] ∧
      (∀ t ∈ [ascii "t2", ascii "ta,g3"], (44 : Byte) ∉ QueryEscape t) ∧
      (Split field).length = [ascii "t2", ascii "ta,g3"].length :=
  ⟨by decide, C2_tag_list_codec_round_trip (ascii "media2") sampleUUID.String
    [ascii "t2", ascii "ta,g3"] (by decide)⟩

/-- An identifier whose record hash is empty was never given out. -/
theorem Consistent.fresh {h : List Created} {st : Store} (hc : Consistent h st) (id : Str)
    (hempty : st.hashes (mediaPrefix ++ id) = []) : id ∉ h.map Created.id := by
  intro hmem
  rcases List.mem_map.1 hmem with ⟨m, hm, rfl⟩
  rw [hc.record m hm] at hempty
  exact absurd hempty (List.cons_ne_nil _ _)

/-- C3. Filtering: in any state the empty model store reaches under successful
`CreateTag` and `CreateMedia` calls with pairwise distinct identifiers,
`ListMedia(t)` succeeds, leaves the store as it was, and the identifiers of the
records it returns are exactly those of the media created with a tag list
containing `t`, each once; no media whose tag list lacks `t` has a record in
the result. -/
theorem C3_list_media_filtering (h : List Created) (st : Store) (hr : Run h st)
    (bucket : Str) (endpointURL : URL) (uuid : UUID × Option GoError)
    (presigned : Option PresignedHTTPRequest × Option GoError) (t : Str) :
    ∃ recs,
      (modelService bucket endpointURL noFaults uuid presigned).ListMedia st { Tag := t } =
        (.returned (some recs, none), st) ∧
      (recs.map MediaRecord.Key).Nodup ∧
      (∀ id, id ∈ recs.map MediaRecord.Key ↔ ∃ m ∈ h, m.id = id ∧ t ∈ m.params.Tags) ∧
      (∀ m ∈ h, t ∈ m.params.Tags →
        (recs.map MediaRecord.Key).countP (fun key => decide (key = m.id)) = 1) ∧
      (∀ m ∈ h, t ∉ m.params.Tags → m.id ∉ recs.map MediaRecord.Key) := by
  have hc := hr.consistent
  have hkeys : ((h.filter (fun m => decide (t ∈ m.params.Tags))).map (fun m =>
      (modelService bucket endpointURL noFaults uuid presigned).newRecord m.id m.params.Name
        m.params.Tags)).map MediaRecord.Key =
      (h.filter (fun m => decide (t ∈ m.params.Tags))).map Created.id := by
    rw [List.map_map]
    rfl
  have hnodup : ((h.filter (fun m => decide (t ∈ m.params.Tags))).map Created.id).Nodup :=
    (hc.ids_nodup.sublist (List.Sublist.map _ (List.filter_sublist _)))
  have hmem : ∀ id, id ∈ (h.filter (fun m => decide (t ∈ m.params.Tags))).map Created.id ↔
      ∃ m ∈ h, m.id = id ∧ t ∈ m.params.Tags := by
    intro id
    simp only [List.mem_map, List.mem_filter, decide_eq_true_eq]
    constructor
    · rintro ⟨m, ⟨hm, ht⟩, rfl⟩
      exact ⟨m, hm, rfl, ht⟩
    · rintro ⟨m, hm, rfl, ht⟩
      exact ⟨m, ⟨hm, ht⟩, rfl⟩
  refine ⟨_, ListMedia_consistent hc bucket endpointURL uuid presigned t, ?_, ?_, ?_, ?_⟩
  · rw [hkeys]; exact hnodup
  · intro id; rw [hkeys]; exact hmem id
  · intro m hm ht
    rw [hkeys]
    exact List.count_eq_one_of_mem hnodup ((hmem _).2 ⟨m, hm, rfl, ht⟩)
  · intro m hm ht
    rw [hkeys, hmem]
    rintro ⟨m2, hm2, hid, ht2⟩
    have : m2 = m := List.inj_on_of_nodup_map hc.ids_nodup hm2 hm hid
    exact ht (this ▸ ht2)

theorem sample_run : Run sampleHistory sampleStore :=
  Run.createMedia (ascii "mybucket") sampleEndpoint otherUUID (some sampleRequest)
    { Name := ascii "media2", Tags := [ascii "tag2", ascii "ta,g3"] }
    (Run.createMedia (ascii "mybucket") sampleEndpoint sampleUUID (some sampleRequest)
      { Name := ascii "media1", Tags := [ascii "tag1", ascii "tag2"] }
      (Run.createTag (ascii "mybucket") sampleEndpoint (sampleUUID, none)
        (some sampleRequest, none) { Name := ascii "tag1" } Run.init)
      (by decide))
    (by decide)

/-- Witness of C3 on the store of the integration test, for `tag2`. -/
theorem C3_list_media_filtering_witness :
    ∃ recs,
      (sampleService sampleUUID).ListMedia sampleStore { Tag := ascii "tag2" } =
        (.returned (some recs, none), sampleStore) ∧
      (recs.map MediaRecord.Key).Nodup ∧
      (∀ id, id ∈ recs.map MediaRecord.Key ↔
        ∃ m ∈ sampleHistory, m.id = id ∧ ascii "tag2" ∈ m.params.Tags) ∧
      (∀ m ∈ sampleHistory, ascii "tag2" ∈ m.params.Tags →
        (recs.map MediaRecord.Key).countP (fun key => decide (key = m.id)) = 1) ∧
      (∀ m ∈ sampleHistory, ascii "tag2" ∉ m.params.Tags → m.id ∉ recs.map MediaRecord.Key) :=
  C3_list_media_filtering sampleHistory sampleStore sample_run (ascii "mybucket") sampleEndpoint
    (sampleUUID, none) (some sampleRequest, none) (ascii "tag2")

/-! ## The URL of a record -/

theorem cleanLoop_nil (rooted : Bool) (fuel : Nat) (out : Str) (dotdot : Nat) :
    cleanLoop rooted fuel [] out dotdot = out := by
  cases fuel <;> rfl

theorem cleanLoop_slash (rooted : Bool) (fuel : Nat) (rest out : Str) (dotdot : Nat) :
    cleanLoop rooted (fuel + 1) (47 :: rest) out dotdot = cleanLoop rooted fuel rest out dotdot := by
  simp [cleanLoop]

/-- Up to the next slash: an element without slash is taken whole. -/
theorem takeWhile_dropWhile_elem (e rest : Str) (he : (47 : Byte) ∉ e)
    (hrest : rest = [] ∨ rest.head? = some 47) :
    (e ++ rest).takeWhile (fun x => decide (x ≠ 47)) = e ∧
    (e ++ rest).dropWhile (fun x => decide (x ≠ 47)) = rest := by
  induction e with
  | nil =>
    rcases hrest with rfl | h
    · simp
    · cases rest with
      | nil => simp
      | cons c r =>
        simp only [List.head?_cons, Option.some.injEq] at h
        subst h
        simp
  | cons c e ih =>
    have hc : c ≠ 47 := fun h => he (h ▸ List.mem_cons_self _ _)
    have := ih (fun h => he (List.mem_cons_of_mem _ h))
    simpa [List.takeWhile_cons, List.dropWhile_cons, hc] using this

/-- A path element that is not empty, has no slash and is neither `.` nor `..`
is copied by the loop of `Clean`, after a slash unless the buffer is `/`. -/
theorem cleanLoop_elem (fuel : Nat) (e rest out : Str) (dotdot : Nat) (hne : e ≠ [])
    (he : (47 : Byte) ∉ e) (hdot : e ≠ [46]) (hdotdot : e ≠ [46, 46])
    (hrest : rest = [] ∨ rest.head? = some 47) :
    cleanLoop true (fuel + 1) (e ++ rest) out dotdot =
      cleanLoop true fuel rest ((if out.length ≠ 1 then out ++ [47] else out) ++ e) dotdot := by
  obtain ⟨htake, hdrop⟩ := takeWhile_dropWhile_elem e rest he hrest
  cases e with
  | nil => exact absurd rfl hne
  | cons c e1 =>
    have hc : c ≠ 47 := fun h => he (h ▸ List.mem_cons_self _ _)
    have h2 : ¬ (c = 46 ∧ (e1 ++ rest = [] ∨ (e1 ++ rest).head? = some 47)) := by
      rintro ⟨rfl, h⟩
      cases e1 with
      | nil => exact hdot rfl
      | cons d e2 =>
        have hd : d ≠ 47 := fun h => he (by simp [h])
        rcases h with h | h
        · simp at h
        · simp only [List.cons_append, List.head?_cons, Option.some.injEq] at h
          exact hd h
    have h3 : ¬ (c = 46 ∧ (e1 ++ rest).head? = some 46 ∧
        ((e1 ++ rest).tail = [] ∨ (e1 ++ rest).tail.head? = some 47)) := by
      rintro ⟨rfl, h, h4⟩
      cases e1 with
      | nil => exact hdot rfl
      | cons d e2 =>
        simp only [List.cons_append, List.head?_cons, Option.some.injEq] at h
        subst h
        cases e2 with
        | nil => exact hdotdot rfl
        | cons f e3 =>
          have hf : f ≠ 47 := fun h => he (by simp [h])
          rcases h4 with h4 | h4
          · simp at h4
          · simp only [List.cons_append, List.tail_cons, List.head?_cons,
              Option.some.injEq] at h4
            exact hf h4
    rw [List.cons_append, cleanLoop]
    rw [List.cons_append] at htake hdrop
    simp only [hc, h2, h3, if_false, htake, hdrop, true_and, Bool.true_eq_false, false_and,
      or_false]

theorem ascii_slash : ascii "/" = [47] := by decide

/-- The path `ListMedia` computes when the endpoint path is empty or `/`. -/
theorem pathJoin_record (p bucket key : Str) (hp : p = [] ∨ p = ascii "/")
    (hb : bucket ≠ [] ∧ (47 : Byte) ∉ bucket ∧ bucket ≠ ascii "." ∧ bucket ≠ ascii "..")
    (hk : key ≠ [] ∧ (47 : Byte) ∉ key ∧ key ≠ ascii "." ∧ key ≠ ascii "..") :
    pathJoin [ascii "/", p, bucket, key] = ascii "/" ++ bucket ++ ascii "/" ++ key := by
  have hdot : ascii "." = [46] := by decide
  have hdotdot : ascii ".." = [46, 46] := by decide
  rw [hdot, hdotdot] at hb hk
  obtain ⟨hb1, hb2, hb3, hb4⟩ := hb
  obtain ⟨hk1, hk2, hk3, hk4⟩ := hk
  have hlen : 3 ≤ (bucket ++ 47 :: key).length := by
    have := List.length_pos.2 hb1
    have := List.length_pos.2 hk1
    simp only [List.length_append, List.length_cons]
    omega
  have hout : ((if ([47] : Str).length ≠ 1 then [47] ++ [47] else [47]) ++ bucket) =
      47 :: bucket := by simp
  have hout2 : (if (47 :: bucket).length ≠ 1 then (47 :: bucket) ++ [47] else 47 :: bucket) ++
      key = 47 :: (bucket ++ 47 :: key) := by
    have := List.length_pos.2 hb1
    have hne : (47 :: bucket).length ≠ 1 := by simp only [List.length_cons]; omega
    rw [if_pos hne]
    simp
  have hmain : ∀ fuel, 3 ≤ fuel → cleanLoop true fuel (bucket ++ 47 :: key) [47] 1 =
      47 :: (bucket ++ 47 :: key) := by
    intro fuel hfuel
    obtain ⟨k, rfl⟩ : ∃ k, fuel = k + 1 + 1 + 1 := ⟨fuel - 3, by omega⟩
    have h1 := cleanLoop_elem (k + 1 + 1) bucket (47 :: key) [47] 1 hb1 hb2 hb3 hb4
      (Or.inr rfl)
    have h2 := cleanLoop_elem k key [] (47 :: bucket) 1 hk1 hk2 hk3 hk4 (Or.inl rfl)
    rw [List.append_nil] at h2
    rw [h1, hout, cleanLoop_slash, h2, hout2, cleanLoop_nil]
  rcases hp with rfl | rfl
  · have hbuf : pathJoin [ascii "/", [], bucket, key] =
        Clean (47 :: 47 :: 47 :: (bucket ++ 47 :: key)) := by
      simp [pathJoin, ascii_slash, hb1]
    rw [hbuf, Clean]
    simp only [decide_True, if_true, List.length_cons, cleanLoop_slash]
    rw [hmain _ (by omega)]
    simp [ascii_slash]
  · have hbuf : pathJoin [ascii "/", ascii "/", bucket, key] =
        Clean (47 :: 47 :: 47 :: 47 :: (bucket ++ 47 :: key)) := by
      simp [pathJoin, ascii_slash, hb1]
    rw [hbuf, Clean]
    simp only [decide_True, if_true, List.length_cons, cleanLoop_slash]
    rw [hmain _ (by omega)]
    simp [ascii_slash]

/-- Every record of a successful result is either still the one the result
slice started with or one the loop built with `newRecord` for a listed key. -/
theorem listLoop_mem {σ : Type} (s : mediaService σ) (keys : List Str) :
    ∀ (resps : List RedisResult) (i : Nat) (result recs : List MediaRecord),
      s.listLoop keys i resps result = .returned (some recs, none) →
      ∀ r ∈ recs, r ∈ result ∨ ∃ key name tags, r = s.newRecord key name tags := by
  intro resps
  induction resps with
  | nil =>
    intro i result recs h r hr
    simp only [mediaService.listLoop, Outcome.returned.injEq, Prod.mk.injEq, Option.some.injEq,
      and_true] at h
    exact Or.inl (h ▸ hr)
  | cons resp rest ih =>
    intro i result recs h r hr
    rw [mediaService.listLoop] at h
    split at h
    · simp at h
    · split at h
      · simp at h
      · split at h
        · simp at h
        · split at h
          · simp at h
          · split at h
            · rcases ih _ _ _ h r hr with hmem | hnew
              · rcases List.mem_or_eq_of_mem_set hmem with hmem | heq
                · exact Or.inl hmem
                · exact Or.inr ⟨_, _, _, heq⟩
              · exact Or.inr hnew
            · simp at h

/-- The loop never returns records together with an error. -/
theorem listLoop_error {σ : Type} (s : mediaService σ) (keys : List Str) :
    ∀ (resps : List RedisResult) (i : Nat) (result : List MediaRecord)
      (val : Option (List MediaRecord)) (err : GoError),
      s.listLoop keys i resps result = .returned (val, some err) → val = none := by
  intro resps
  induction resps with
  | nil =>
    intro i result val err h
    simp [mediaService.listLoop] at h
  | cons resp rest ih =>
    intro i result val err h
    rw [mediaService.listLoop] at h
    split at h
    · simp only [Outcome.returned.injEq, Prod.mk.injEq] at h
      exact h.1.symm
    · split at h
      · simp only [Outcome.returned.injEq, Prod.mk.injEq] at h
        exact h.1.symm
      · split at h
        · simp only [Outcome.returned.injEq, Prod.mk.injEq] at h
          exact h.1.symm
        · split at h
          · simp at h
          · split at h
            · exact ih _ _ _ _ h
            · simp at h

/-- A successful `ListMedia` is a successful run of its loop on a result slice
of zero records. -/
theorem ListMedia_success {σ : Type} (s : mediaService σ) (w : σ) (params : ListMediaParams)
    (recs : List MediaRecord) (h : (s.ListMedia w params).1 = .returned (some recs, none)) :
    ∃ keys resps,
      s.listLoop keys 0 resps (List.replicate keys.length {}) = .returned (some recs, none) := by
  unfold mediaService.ListMedia at h
  simp only at h
  split at h
  · simp at h
  · rw [List.length_map] at h
    exact ⟨_, _, h⟩

/-- C4. URL construction: when the endpoint path is empty or `/` and the bucket
is non-empty, has no slash and is neither `.` nor `..`, every record `r` of a
result of `ListMedia` whose identifier is non-empty, has no slash and is
neither `.` nor `..` carries the endpoint URL with only the path replaced, the
path being `/` + bucket + `/` + identifier: scheme and host are the endpoint's.
This holds for each record of the result alike, so nothing of one record's
path carries over into the next. -/
theorem C4_record_url {σ : Type} (s : mediaService σ) (w : σ) (params : ListMediaParams)
    (recs : List MediaRecord) (r : MediaRecord)
    (hret : (s.ListMedia w params).1 = .returned (some recs, none)) (hr : r ∈ recs)
    (hpath : s.endpointURL.Path = [] ∨ s.endpointURL.Path = ascii "/")
    (hbucket : s.bucket ≠ [] ∧ (47 : Byte) ∉ s.bucket ∧ s.bucket ≠ ascii "." ∧
      s.bucket ≠ ascii "..")
    (hkey : r.Key ≠ [] ∧ (47 : Byte) ∉ r.Key ∧ r.Key ≠ ascii "." ∧ r.Key ≠ ascii "..") :
    r.URL = { s.endpointURL with Path := ascii "/" ++ s.bucket ++ ascii "/" ++ r.Key } ∧
    r.URL.Scheme = s.endpointURL.Scheme ∧ r.URL.Host = s.endpointURL.Host ∧
    r.URL.Path = ascii "/" ++ s.bucket ++ ascii "/" ++ r.Key := by
  obtain ⟨keys, resps, hloop⟩ := ListMedia_success s w params recs hret
  have hurl : r.URL =
      { s.endpointURL with Path := ascii "/" ++ s.bucket ++ ascii "/" ++ r.Key } := by
    rcases listLoop_mem s keys resps 0 _ recs hloop r hr with hzero | ⟨key, name, tags, hnew⟩
    · have := List.eq_of_mem_replicate hzero
      exact absurd (by rw [this]) hkey.1
    · have hk : r.Key = key := by rw [hnew]; rfl
      rw [← hk] at hnew
      have hp := pathJoin_record s.endpointURL.Path s.bucket r.Key hpath hbucket hkey
      have hu : r.URL = (s.newRecord r.Key name tags).URL := congrArg MediaRecord.URL hnew
      rw [hu]
      simp only [mediaService.newRecord]
      rw [hp]
  refine ⟨hurl, ?_, ?_, ?_⟩ <;> rw [hurl]

/-- Witness of C4: the second record of the unit test `ListMedia/happy path`
has the URL `http://test/mybucket/key2`. -/
theorem C4_record_url_witness :
    (happyPathRecords.getD 1 {}).URL =
      { happyPathService.endpointURL with
        Path := ascii "/" ++ happyPathService.bucket ++ ascii "/" ++
          (happyPathRecords.getD 1 {}).Key } ∧
    (happyPathRecords.getD 1 {}).URL.Scheme = happyPathService.endpointURL.Scheme ∧
    (happyPathRecords.getD 1 {}).URL.Host = happyPathService.endpointURL.Host ∧
    (happyPathRecords.getD 1 {}).URL.Path =
      ascii "/" ++ happyPathService.bucket ++ ascii "/" ++ (happyPathRecords.getD 1 {}).Key :=
  C4_record_url happyPathService () { Tag := ascii "mytag" } happyPathRecords
    (happyPathRecords.getD 1 {}) (by decide) (by decide) (by decide) (by decide) (by decide)

/-! ## `CreateTag` -/

theorem exec_Sadd_mem (st : Store) (key member : Str) :
    member ∈ (st.exec (.Sadd key member)).2.sets key := by
  rw [exec_Sadd_sets]
  by_cases h : member ∈ st.sets key <;> simp [h]

theorem exec_Sadd_of_mem (st : Store) (key member : Str) (h : member ∈ st.sets key) :
    (st.exec (.Sadd key member)).2 = st := by
  simp [Store.exec, h]

theorem Do_of_no_fault (faults : Nat → Option GoError) (h : faults 0 = none) (st : Store)
    (cmd : Cmd) : (storeClient faults).Do st cmd = st.exec cmd := by
  simp [storeClient, Store.run, h]

/-- C5. `CreateTag` is idempotent on the model store: from every store state
and for every tag `t`, `CreateTag(t)` succeeds, a second `CreateTag(t)`
succeeds too and leaves exactly the state the first one left; `ListTags` then
succeeds and holds `t` exactly once; and `CreateTag` changes no hash and no set
other than the global tag set. -/
theorem C5_create_tag_idempotent (bucket : Str) (endpointURL : URL)
    (uuid : UUID × Option GoError) (presigned : Option PresignedHTTPRequest × Option GoError)
    (st : Store) (t : Str) :
    ((modelService bucket endpointURL noFaults uuid presigned).CreateTag st { Name := t }).1 =
      none ∧
    (modelService bucket endpointURL noFaults uuid presigned).CreateTag
      ((modelService bucket endpointURL noFaults uuid presigned).CreateTag st { Name := t }).2
      { Name := t } =
      (none,
        ((modelService bucket endpointURL noFaults uuid presigned).CreateTag st
          { Name := t }).2) ∧
    (∃ tags,
      (modelService bucket endpointURL noFaults uuid presigned).ListTags
        ((modelService bucket endpointURL noFaults uuid presigned).CreateTag st { Name := t }).2 =
        ((some tags, none),
          ((modelService bucket endpointURL noFaults uuid presigned).CreateTag st
            { Name := t }).2) ∧
      tags.countP (fun x => decide (x = t)) = 1) ∧
    ((modelService bucket endpointURL noFaults uuid presigned).CreateTag st
      { Name := t }).2.hashes = st.hashes ∧
    (∀ key, key ≠ tagsKey →
      ((modelService bucket endpointURL noFaults uuid presigned).CreateTag st
        { Name := t }).2.sets key = st.sets key) := by
  simp only [CreateTag_model]
  refine ⟨trivial, ?_, ?_, exec_Sadd_hashes _ _ _, ?_⟩
  · rw [exec_Sadd_of_mem _ _ _ (exec_Sadd_mem st tagsKey t)]
  · refine ⟨(st.exec (.Sadd tagsKey t)).2.sets tagsKey, ?_, ?_⟩
    · simp only [mediaService.ListTags, modelService, Do_noFaults]
      rfl
    · exact List.count_eq_one_of_mem ((st.exec (.Sadd tagsKey t)).2.sets_nodup tagsKey)
        (exec_Sadd_mem st tagsKey t)
  · intro key hkey
    rw [exec_Sadd_sets]
    simp [hkey]

/-! ## Which segments `QueryUnescape` rejects -/

set_option maxRecDepth 100000 in
theorem ishex_ne_percent (c : Byte) (h : ishex c = true) : c ≠ 37 := by
  revert c
  decide

/-- The first loop of `unescape` fails exactly on the segments with a `%` that
is not followed by two hexadecimal digits. -/
theorem unescapeCheck_hasBadEscape (s : Str) (n : Nat) (hasPlus : Bool) :
    (hasBadEscape s = false → ∃ r, unescapeCheck s n hasPlus = .ok r) ∧
    (hasBadEscape s = true → ∃ bad, unescapeCheck s n hasPlus = .error bad) := by
  induction s, n, hasPlus using unescapeCheck.induct with
  | case1 n hp => exact ⟨fun _ => ⟨_, rfl⟩, fun h => by simp [hasBadEscape] at h⟩
  | case2 n hp a b rest2 hab ih =>
    have ha : a ≠ 37 := ishex_ne_percent a (by simp only [Bool.and_eq_true] at hab; exact hab.1)
    have hb : b ≠ 37 := ishex_ne_percent b (by simp only [Bool.and_eq_true] at hab; exact hab.2)
    have hbad : hasBadEscape (37 :: a :: b :: rest2) = hasBadEscape rest2 := by
      simp [hasBadEscape, startsWithTwoHex, hab, ha, hb]
    have hcheck : unescapeCheck (37 :: a :: b :: rest2) n hp = unescapeCheck rest2 (n + 1) hp := by
      rw [unescapeCheck.eq_def]
      simp [hab]
    rw [hbad, hcheck]
    exact ih
  | case3 n hp a b rest2 hab =>
    have hcheck : unescapeCheck (37 :: a :: b :: rest2) n hp =
        .error ((37 :: a :: b :: rest2).take 3) := by
      rw [unescapeCheck.eq_def]
      simp [hab]
    have hbad : hasBadEscape (37 :: a :: b :: rest2) = true := by
      simp only [Bool.not_eq_true] at hab
      simp [hasBadEscape, startsWithTwoHex, hab]
    rw [hbad, hcheck]
    exact ⟨fun h => by simp at h, fun _ => ⟨_, rfl⟩⟩
  | case4 rest n hp hrest =>
    have hcheck : unescapeCheck (37 :: rest) n hp = .error ((37 :: rest).take 3) := by
      match rest, hrest with
      | [], _ => simp [unescapeCheck]
      | [a], _ => simp [unescapeCheck]
      | a :: b :: r, hrest => exact (hrest a b r rfl).elim
    have hbad : hasBadEscape (37 :: rest) = true := by
      match rest, hrest with
      | [], _ => simp [hasBadEscape, startsWithTwoHex]
      | [a], _ => simp [hasBadEscape, startsWithTwoHex]
      | a :: b :: r, hrest => exact (hrest a b r rfl).elim
    rw [hbad, hcheck]
    exact ⟨fun h => by simp at h, fun _ => ⟨_, rfl⟩⟩
  | case5 rest n hp _ ih =>
    have hcheck : unescapeCheck (43 :: rest) n hp = unescapeCheck rest n true := by
      rw [unescapeCheck.eq_def]
      simp
    have hbad : hasBadEscape (43 :: rest) = hasBadEscape rest := by
      simp [hasBadEscape]
    rw [hbad, hcheck]
    exact ih
  | case6 c rest n hp h37 h43 ih =>
    have hcheck : unescapeCheck (c :: rest) n hp = unescapeCheck rest n hp := by
      rw [unescapeCheck.eq_def]
      simp [h37, h43]
    have hbad : hasBadEscape (c :: rest) = hasBadEscape rest := by
      simp [hasBadEscape, h37]
    rw [hbad, hcheck]
    exact ih

/-- `QueryUnescape` succeeds on a segment without a bad escape and fails with
an `EscapeError` on one with a bad escape. -/
theorem QueryUnescape_hasBadEscape (seg : Str) :
    (hasBadEscape seg = false → ∃ tag, QueryUnescape seg = (tag, none)) ∧
    (hasBadEscape seg = true → ∃ bad, QueryUnescape seg = ([], some (.escapeError bad))) := by
  obtain ⟨hgood, hbad⟩ := unescapeCheck_hasBadEscape seg 0 false
  constructor
  · intro h
    obtain ⟨⟨n, hp⟩, hr⟩ := hgood h
    unfold QueryUnescape
    rw [hr]
    by_cases hz : n = 0 ∧ hp = false
    · exact ⟨seg, by simp only [hz, and_self, if_true]⟩
    · exact ⟨unescapeBuild seg, by simp only [hz, if_false]⟩
  · intro h
    obtain ⟨bad, hr⟩ := hbad h
    unfold QueryUnescape
    rw [hr]
    exact ⟨bad, rfl⟩

/-- The inner loop of `ListMedia` succeeds when no segment has a bad escape and
fails with a tag-decoding error when one has. -/
theorem decodeTags_hasBadEscape (segs : List Str) (i : Nat) :
    ((∀ seg ∈ segs, hasBadEscape seg = false) → ∃ tags, decodeTags i segs = (some tags, none)) ∧
    ((∃ seg ∈ segs, hasBadEscape seg = true) →
      ∃ e, decodeTags i segs = (none, some e) ∧ IsTagDecodingError e) := by
  induction segs generalizing i with
  | nil => exact ⟨fun _ => ⟨[], rfl⟩, fun ⟨_, h, _⟩ => by simp at h⟩
  | cons seg rest ih =>
    obtain ⟨hgood, hbad⟩ := QueryUnescape_hasBadEscape seg
    constructor
    · intro h
      obtain ⟨tag, htag⟩ := hgood (h seg (List.mem_cons_self _ _))
      obtain ⟨tags, htags⟩ := (ih (i + 1)).1 (fun x hx => h x (List.mem_cons_of_mem _ hx))
      exact ⟨tag :: tags, by rw [decodeTags, htag]; simp only [htags]⟩
    · rintro ⟨x, hx, hxbad⟩
      cases hs : hasBadEscape seg with
      | true =>
        obtain ⟨bad, hq⟩ := hbad hs
        exact ⟨_, by rw [decodeTags, hq], i, bad, rfl⟩
      | false =>
        obtain ⟨tag, htag⟩ := hgood hs
        have hxr : x ∈ rest := by
          rcases List.mem_cons.1 hx with rfl | hx
          · rw [hs] at hxbad; exact absurd hxbad (by decide)
          · exact hx
        obtain ⟨e, he, hdec⟩ := (ih (i + 1)).2 ⟨x, hxr, hxbad⟩
        exact ⟨e, by rw [decodeTags, htag]; simp only [he], hdec⟩

/-- The loop of `ListMedia` on responses that are all field maps, one per
key: it succeeds when no segment has a bad escape and ends with a tag-decoding
error when one has. -/
theorem listLoop_decoding {σ : Type} (s : mediaService σ) (keys : List Str) :
    ∀ (resps : List RedisResult) (i : Nat) (result : List MediaRecord),
      (∀ resp ∈ resps, resp.Error = none ∧ resp.AsStrMap.2 = none) →
      i + resps.length ≤ keys.length → result.length = keys.length →
      ((∀ resp ∈ resps, ∀ seg ∈ segmentsOf resp, hasBadEscape seg = false) →
        ∃ recs, s.listLoop keys i resps result = .returned (some recs, none)) ∧
      ((∃ resp ∈ resps, ∃ seg ∈ segmentsOf resp, hasBadEscape seg = true) →
        ∃ e, s.listLoop keys i resps result = .returned (none, some e) ∧
          IsTagDecodingError e) := by
  intro resps
  induction resps with
  | nil =>
    intro i result _ _ _
    exact ⟨fun _ => ⟨result, rfl⟩, fun ⟨_, h, _⟩ => by simp at h⟩
  | cons resp rest ih =>
    intro i result hmaps hlen hres
    obtain ⟨he, hm⟩ := hmaps resp (List.mem_cons_self _ _)
    have hrest : ∀ r ∈ rest, r.Error = none ∧ r.AsStrMap.2 = none :=
      fun r hr => hmaps r (List.mem_cons_of_mem _ hr)
    rw [List.length_cons] at hlen
    have hi : i < keys.length := by omega
    have hkey : keys[i]? = some keys[i] := List.getElem?_eq_getElem hi
    have hi2 : i < result.length := by omega
    obtain ⟨hgood, hbad⟩ := decodeTags_hasBadEscape (segmentsOf resp) 0
    have hstep : ∀ tags, decodeTags 0 (segmentsOf resp) = (tags, none) →
        s.listLoop keys i (resp :: rest) result =
          s.listLoop keys (i + 1) rest
            (result.set i (s.newRecord keys[i] (GoMap.get (resp.AsStrMap.1.getD []) nameField)
              (tags.getD []))) := by
      intro tags htags
      rw [mediaService.listLoop, he]
      rcases hasm : resp.AsStrMap with ⟨m, e⟩
      rw [hasm] at hm
      simp only at hm
      subst hm
      simp only [segmentsOf, hasm] at htags
      simp only [htags, hkey, hi2, if_true]
    have hstop : ∀ e, decodeTags 0 (segmentsOf resp) = (none, some e) →
        s.listLoop keys i (resp :: rest) result = .returned (none, some e) := by
      intro e hdec
      rw [mediaService.listLoop, he]
      rcases hasm : resp.AsStrMap with ⟨m, e2⟩
      rw [hasm] at hm
      simp only at hm
      subst hm
      simp only [segmentsOf, hasm] at hdec
      simp only [hdec]
    by_cases hb : ∃ seg ∈ segmentsOf resp, hasBadEscape seg = true
    · obtain ⟨e, hdec, hform⟩ := hbad hb
      constructor
      · intro hall
        obtain ⟨seg, hseg, hsb⟩ := hb
        rw [hall resp (List.mem_cons_self _ _) seg hseg] at hsb
        exact absurd hsb (by decide)
      · intro _
        exact ⟨e, hstop e hdec, hform⟩
    · have hallgood : ∀ seg ∈ segmentsOf resp, hasBadEscape seg = false := by
        intro seg hseg
        cases hs : hasBadEscape seg with
        | false => rfl
        | true => exact absurd ⟨seg, hseg, hs⟩ hb
      obtain ⟨tags, hdec⟩ := hgood hallgood
      rw [hstep _ hdec]
      obtain ⟨ih1, ih2⟩ := ih (i + 1) (result.set i (s.newRecord keys[i]
        (GoMap.get (resp.AsStrMap.1.getD []) nameField) ((some tags).getD []))) hrest
        (by omega) (by rw [List.length_set]; exact hres)
      constructor
      · intro hall
        exact ih1 (fun r hr => hall r (List.mem_cons_of_mem _ hr))
      · rintro ⟨r, hr, seg, hseg, hsb⟩
        rcases List.mem_cons.1 hr with rfl | hr
        · exact absurd ⟨seg, hseg, hsb⟩ hb
        · exact ih2 ⟨r, hr, seg, hseg, hsb⟩

/-- C6. Given that the index read succeeds and that every record read
succeeds and returns a field map, one per listed identifier: `ListMedia` fails
with a tag-decoding error if and only if some comma-separated segment of the
tags field of some record contains a `%` that is not followed by two
hexadecimal digits; and when no segment of any record does, it returns a
result and no error. -/
theorem C6_tag_decoding_error_iff {σ : Type} (s : mediaService σ) (w : σ)
    (params : ListMediaParams) (r : RedisResult) (keys : List Str) (w1 : σ)
    (resps : List RedisResult) (w2 : σ)
    (hDo : s.rueidisClient.Do w (.Smembers (tagsPrefix ++ params.Tag)) = (r, w1))
    (hkeys : r.AsStrSlice = (some keys, none))
    (hMulti : s.rueidisClient.DoMulti w1
      (keys.map (fun key => Cmd.Hgetall (mediaPrefix ++ key))) = (resps, w2))
    (hlen : resps.length = keys.length)
    (hmaps : ∀ resp ∈ resps, resp.Error = none ∧ resp.AsStrMap.2 = none) :
    ((∃ e, (s.ListMedia w params).1 = .returned (none, some e) ∧ IsTagDecodingError e) ↔
      ∃ resp ∈ resps, ∃ seg ∈ segmentsOf resp, hasBadEscape seg = true) ∧
    ((∀ resp ∈ resps, ∀ seg ∈ segmentsOf resp, hasBadEscape seg = false) →
      ∃ recs, (s.ListMedia w params).1 = .returned (some recs, none)) := by
  rw [ListMedia_unfold s w params r keys w1 resps w2 hDo hkeys hMulti]
  obtain ⟨hgood, hbad⟩ := listLoop_decoding s keys resps 0 (List.replicate keys.length {}) hmaps
    (by omega) (by simp)
  refine ⟨⟨?_, hbad⟩, hgood⟩
  rintro ⟨e, he, _⟩
  by_contra hnone
  have hall : ∀ resp ∈ resps, ∀ seg ∈ segmentsOf resp, hasBadEscape seg = false := by
    intro resp hresp seg hseg
    cases hs : hasBadEscape seg with
    | false => rfl
    | true => exact absurd ⟨resp, hresp, seg, hseg, hs⟩ hnone
  obtain ⟨recs, hrecs⟩ := hgood hall
  simp only at he hrecs
  rw [hrecs] at he
  simp at he

/-- Witness of C6: the unit test `ListMedia/it fails if decoding tags fails`. -/
theorem C6_tag_decoding_error_iff_witness :
    (badTagService.ListMedia () { Tag := ascii "mytag" }).1 =
      .returned (none, some (.wrap (ascii "decoding tag 1: ") (.escapeError (ascii "%")) [])) ∧
    ((∃ e, (badTagService.ListMedia () { Tag := ascii "mytag" }).1 = .returned (none, some e) ∧
        IsTagDecodingError e) ↔
      ∃ resp ∈ [RedisResult.map [(nameField, ascii "name1"), (tagsField, ascii "tag1,tag2")],
          RedisResult.map [(nameField, ascii "name2"), (tagsField, ascii "tag2,tag3%")]],
        ∃ seg ∈ segmentsOf resp, hasBadEscape seg = true) ∧
    ((∀ resp ∈ [RedisResult.map [(nameField, ascii "name1"), (tagsField, ascii "tag1,tag2")],
          RedisResult.map [(nameField, ascii "name2"), (tagsField, ascii "tag2,tag3%")]],
        ∀ seg ∈ segmentsOf resp, hasBadEscape seg = false) →
      ∃ recs, (badTagService.ListMedia () { Tag := ascii "mytag" }).1 =
        .returned (some recs, none)) :=
  ⟨by decide, C6_tag_decoding_error_iff badTagService () { Tag := ascii "mytag" }
    (.array false [ascii "key1", ascii "key2"]) [ascii "key1", ascii "key2"] ()
    [.map [(nameField, ascii "name1"), (tagsField, ascii "tag1,tag2")],
     .map [(nameField, ascii "name2"), (tagsField, ascii "tag2,tag3%")]] ()
    rfl rfl rfl rfl (by decide)⟩

/-! ## Failure and the empty index -/

/-- C7. `ListMedia` never returns a partial result: whatever the store
answers, whenever `ListMedia` returns a non-nil error (a failed index read, a
failed record read, a record that is not a field map, a malformed tag segment,
at any position) the record sequence it returns is nil. -/
theorem C7_no_partial_result {σ : Type} (s : mediaService σ) (w : σ) (params : ListMediaParams)
    (val : Option (List MediaRecord)) (err : GoError)
    (h : (s.ListMedia w params).1 = .returned (val, some err)) : val = none := by
  unfold mediaService.ListMedia at h
  simp only at h
  split at h
  · simp only [Outcome.returned.injEq, Prod.mk.injEq] at h
    exact h.1.symm
  · exact listLoop_error s _ _ _ _ _ _ h

/-- Witness of C7: in the unit test `ListMedia/it fails if decoding tags
fails` the first record decodes, the second does not, and the result is nil. -/
theorem C7_no_partial_result_witness :
    (badTagService.ListMedia () { Tag := ascii "mytag" }).1 =
      .returned (none, some (.wrap (ascii "decoding tag 1: ") (.escapeError (ascii "%")) [])) ∧
    (none : Option (List MediaRecord)) = none :=
  ⟨by decide, C7_no_partial_result badTagService () { Tag := ascii "mytag" } none
    (.wrap (ascii "decoding tag 1: ") (.escapeError (ascii "%")) []) (by decide)⟩

/-- C8. For a tag whose index set is absent or empty in the model store,
`ListMedia` returns an empty, non-nil sequence and no error, leaves the store
as it was, and the only commands it sends are the index read and an empty
batch: no record read is issued. -/
theorem C8_unknown_tag (bucket : Str) (endpointURL : URL) (faults : Nat → Option GoError)
    (uuid : UUID × Option GoError) (presigned : Option PresignedHTTPRequest × Option GoError)
    (st : Store) (t : Str) (hempty : st.sets (tagsPrefix ++ t) = []) (hfault : faults 0 = none) :
    (modelService bucket endpointURL faults uuid presigned).traced.ListMedia (st, [])
        { Tag := t } =
      (.returned (some [], none),
        (st, [Call.Do (.Smembers (tagsPrefix ++ t)), Call.DoMulti []])) ∧
    (modelService bucket endpointURL faults uuid presigned).ListMedia st { Tag := t } =
      (.returned (some [], none), st) := by
  have hDo : (storeClient faults).Do st (.Smembers (tagsPrefix ++ t)) =
      (.array true [], st) := by
    rw [Do_of_no_fault faults hfault, ← hempty]
    rfl
  constructor
  · rw [ListMedia_unfold _ (st, []) { Tag := t } (.array true []) [] (st, [Call.Do (.Smembers (tagsPrefix ++ t))]) []
      (st, [Call.Do (.Smembers (tagsPrefix ++ t)), Call.DoMulti []])]
    · rfl
    · simp only [mediaService.traced, modelService, hDo, List.nil_append]
    · rfl
    · simp only [mediaService.traced, modelService, storeClient, List.map_nil, run_nil]
      rfl
  · rw [ListMedia_unfold _ st { Tag := t } (.array true []) [] st [] st]
    · rfl
    · exact hDo
    · rfl
    · rfl

/-- Witness of C8: `ListMedia("tag1")` on the empty store, the first query of
the integration test. -/
theorem C8_unknown_tag_witness :
    (sampleService sampleUUID).traced.ListMedia (Store.empty, []) { Tag := ascii "tag1" } =
      (.returned (some [], none),
        (Store.empty,
          [Call.Do (.Smembers (tagsPrefix ++ ascii "tag1")), Call.DoMulti []])) ∧
    (sampleService sampleUUID).ListMedia Store.empty { Tag := ascii "tag1" } =
      (.returned (some [], none), Store.empty) :=
  C8_unknown_tag (ascii "mybucket") sampleEndpoint noFaults (sampleUUID, none)
    (some sampleRequest, none) Store.empty (ascii "tag1") rfl rfl

/-! ## The batch of `CreateMedia` -/

/-- `CreateMedia` once the generator has answered `u`, the presigner `request`
and the batch `resps`. -/
theorem CreateMedia_unfold {σ : Type} (s : mediaService σ) (w : σ) (params : CreateMediaParams)
    (u : UUID) (w1 : σ) (request : Option PresignedHTTPRequest) (w2 : σ)
    (resps : List RedisResult) (w3 : σ)
    (hgen : s.generateUUID w = ((u, none), w1))
    (hpre : s.presignClient w1 { Bucket := s.bucket, Key := u.String } [] = ((request, none), w2))
    (hmulti : s.rueidisClient.DoMulti w2 (createMediaCmds params u.String) = (resps, w3)) :
    s.CreateMedia w params =
      (match checkResponses 0 resps with
        | some err => ((none, some err), w3)
        | none => ((request, none), w3)) := by
  unfold mediaService.CreateMedia
  simp only [hgen, hpre, hmulti]

/-- The calls of `CreateMedia` when the generator and the presigner succeed:
the generator, the presigner, one batch; and the world the batch left. -/
theorem CreateMedia_traced {σ : Type} (s : mediaService σ) (w : σ) (params : CreateMediaParams)
    (u : UUID) (w1 : σ) (request : Option PresignedHTTPRequest) (w2 : σ)
    (hgen : s.generateUUID w = ((u, none), w1))
    (hpre : s.presignClient w1 { Bucket := s.bucket, Key := u.String } [] = ((request, none), w2)) :
    (s.traced.CreateMedia (w, []) params).2 =
      ((s.rueidisClient.DoMulti w2 (createMediaCmds params u.String)).2,
        [Call.generateUUID, Call.PresignPutObject { Bucket := s.bucket, Key := u.String } [],
          Call.DoMulti (createMediaCmds params u.String)]) := by
  rw [CreateMedia_unfold s.traced (w, []) params u (w1, [Call.generateUUID]) request
    (w2, [Call.generateUUID, Call.PresignPutObject { Bucket := s.bucket, Key := u.String } []])
    (s.rueidisClient.DoMulti w2 (createMediaCmds params u.String)).1
    ((s.rueidisClient.DoMulti w2 (createMediaCmds params u.String)).2,
      [Call.generateUUID, Call.PresignPutObject { Bucket := s.bucket, Key := u.String } [],
        Call.DoMulti (createMediaCmds params u.String)])]
  · split <;> rfl
  · simp only [mediaService.traced, hgen, List.nil_append]
  · simp only [mediaService.traced, hpre, List.singleton_append]
  · simp only [mediaService.traced, List.cons_append, List.nil_append]

/-- The set-adds of the batch, by position. -/
theorem saddPairs_getElem (id : Str) (tags : List Str) :
    ∀ k tag, tags[k]? = some tag →
      (tags.flatMap (fun tag => [Cmd.Sadd tagsKey tag, Cmd.Sadd (tagsPrefix ++ tag) id]))[2 * k]? =
        some (.Sadd tagsKey tag) ∧
      (tags.flatMap (fun tag => [Cmd.Sadd tagsKey tag, Cmd.Sadd (tagsPrefix ++ tag) id]))[2 * k + 1]?
        = some (.Sadd (tagsPrefix ++ tag) id) := by
  induction tags with
  | nil => intro k tag h; simp at h
  | cons t rest ih =>
    intro k tag h
    cases k with
    | zero =>
      simp only [List.getElem?_cons_zero, Option.some.injEq] at h
      subst h
      simp [List.flatMap_cons]
    | succ k =>
      rw [List.getElem?_cons_succ] at h
      have := ih k tag h
      have e1 : 2 * (k + 1) = 2 * k + 1 + 1 := by omega
      rw [List.flatMap_cons, e1]
      simpa using this

theorem saddPairs_length (id : Str) (tags : List Str) :
    (tags.flatMap (fun tag => [Cmd.Sadd tagsKey tag, Cmd.Sadd (tagsPrefix ++ tag) id])).length =
      2 * tags.length := by
  induction tags with
  | nil => rfl
  | cons t rest ih =>
    rw [List.flatMap_cons, List.length_append, ih, List.length_cons]
    simp only [List.length_cons, List.length_nil]
    omega

/-- C9. For every name and tag list of length `n`, when the generator and the
presigner succeed, the calls of `CreateMedia` are the generator, the presigner
and one batch, and no other store command; the batch has exactly `2n + 1`
commands: at position 0 the hash-write on `media:` + id with the fields `name`
and `tags` (the escaped tags joined with commas), and for the `k`-th tag (from
0, duplicates repeated) at position `2k + 1` the set-add of the tag into `tags`
and at position `2k + 2` the set-add of id into `tags:` + tag, id being the
string form of the generated identifier. -/
theorem C9_create_media_batch {σ : Type} (s : mediaService σ) (w : σ)
    (params : CreateMediaParams) (u : UUID) (w1 : σ) (request : Option PresignedHTTPRequest)
    (w2 : σ) (hgen : s.generateUUID w = ((u, none), w1))
    (hpre : s.presignClient w1 { Bucket := s.bucket, Key := u.String } [] =
      ((request, none), w2)) :
    ∃ cmds,
      (s.traced.CreateMedia (w, []) params).2.2 =
        [Call.generateUUID, Call.PresignPutObject { Bucket := s.bucket, Key := u.String } [],
          Call.DoMulti cmds] ∧
      cmds.length = 2 * params.Tags.length + 1 ∧
      cmds[0]? = some (.Hset (mediaPrefix ++ u.String)
        [(nameField, params.Name),
          (tagsField, Join (params.Tags.map QueryEscape) (ascii ","))]) ∧
      ∀ k tag, params.Tags[k]? = some tag →
        cmds[2 * k + 1]? = some (.Sadd tagsKey tag) ∧
        cmds[2 * k + 2]? = some (.Sadd (tagsPrefix ++ tag) u.String) := by
  refine ⟨createMediaCmds params u.String, ?_, ?_, ?_, ?_⟩
  · rw [CreateMedia_traced s w params u w1 request w2 hgen hpre]
  · simp only [createMediaCmds, List.length_cons, saddPairs_length]
  · simp only [createMediaCmds, List.getElem?_cons_zero]
  · intro k tag hk
    simp only [createMediaCmds, List.getElem?_cons_succ]
    exact saddPairs_getElem u.String params.Tags k tag hk

/-- Witness of C9: the batch of the unit test `CreateMedia/happy path`. -/
theorem C9_create_media_batch_witness :
    ∃ cmds,
      ((sampleService sampleUUID).traced.CreateMedia (Store.empty, []) sampleParams).2.2 =
        [Call.generateUUID,
          Call.PresignPutObject
            { Bucket := (sampleService sampleUUID).bucket, Key := sampleUUID.String } [],
          Call.DoMulti cmds] ∧
      cmds.length = 2 * sampleParams.Tags.length + 1 ∧
      cmds[0]? = some (.Hset (mediaPrefix ++ sampleUUID.String)
        [(nameField, sampleParams.Name),
          (tagsField, Join (sampleParams.Tags.map QueryEscape) (ascii ","))]) ∧
      ∀ k tag, sampleParams.Tags[k]? = some tag →
        cmds[2 * k + 1]? = some (.Sadd tagsKey tag) ∧
        cmds[2 * k + 2]? = some (.Sadd (tagsPrefix ++ tag) sampleUUID.String) :=
  C9_create_media_batch (sampleService sampleUUID) Store.empty sampleParams sampleUUID
    Store.empty (some sampleRequest) Store.empty rfl rfl

/-- The last loop of `CreateMedia` stops at the first response with an error
and names its position. -/
theorem checkResponses_first (resps : List RedisResult) :
    ∀ (n i : Nat) (resp : RedisResult) (e : GoError), resps[i]? = some resp →
      resp.Error = some e → (∀ r ∈ resps.take i, r.Error = none) →
      checkResponses n resps =
        some (.wrap (ascii "executing command " ++ itoa (n + i) ++ ascii ": ") e []) := by
  induction resps with
  | nil => intro n i resp e h; simp at h
  | cons r rest ih =>
    intro n i resp e hi he hbefore
    cases i with
    | zero =>
      simp only [List.getElem?_cons_zero, Option.some.injEq] at hi
      subst hi
      rw [checkResponses, he]
      rfl
    | succ i =>
      rw [List.getElem?_cons_succ] at hi
      rw [List.take_succ_cons] at hbefore
      have h0 : r.Error = none := hbefore r (List.mem_cons_self _ _)
      rw [checkResponses, h0]
      have := ih (n + 1) i resp e hi he (fun x hx => hbefore x (List.mem_cons_of_mem _ hx))
      rw [this]
      have e1 : n + 1 + i = n + (i + 1) := by omega
      rw [e1]

/-- C10. When the generator and the presigner succeed and some response of
the command batch reports a failure, `CreateMedia` returns a nil authorization
and the error `executing command i: ` followed by the message of the store
error, which it wraps, `i` being the zero-based position of the first failing
response; the world is left as the batch left it and the batch is the last
call made: nothing is sent to undo the commands that were applied. -/
theorem C10_batch_failure {σ : Type} (s : mediaService σ) (w : σ) (params : CreateMediaParams)
    (u : UUID) (w1 : σ) (request : Option PresignedHTTPRequest) (w2 : σ)
    (resps : List RedisResult) (w3 : σ) (i : Nat) (resp : RedisResult) (e : GoError)
    (quote : Str → Str)
    (hgen : s.generateUUID w = ((u, none), w1))
    (hpre : s.presignClient w1 { Bucket := s.bucket, Key := u.String } [] = ((request, none), w2))
    (hmulti : s.rueidisClient.DoMulti w2 (createMediaCmds params u.String) = (resps, w3))
    (hi : resps[i]? = some resp) (he : resp.Error = some e)
    (hbefore : ∀ r ∈ resps.take i, r.Error = none) :
    s.CreateMedia w params =
      ((none, some (.wrap (ascii "executing command " ++ itoa i ++ ascii ": ") e [])), w3) ∧
    (GoError.wrap (ascii "executing command " ++ itoa i ++ ascii ": ") e []).Error quote =
      ascii "executing command " ++ itoa i ++ ascii ": " ++ e.Error quote ∧
    (GoError.wrap (ascii "executing command " ++ itoa i ++ ascii ": ") e []).Unwrap = some e ∧
    (s.traced.CreateMedia (w, []) params).2 =
      (w3, [Call.generateUUID, Call.PresignPutObject { Bucket := s.bucket, Key := u.String } [],
        Call.DoMulti (createMediaCmds params u.String)]) := by
  refine ⟨?_, ?_, rfl, ?_⟩
  · rw [CreateMedia_unfold s w params u w1 request w2 resps w3 hgen hpre hmulti,
      checkResponses_first resps 0 i resp e hi he hbefore, Nat.zero_add]
  · simp only [GoError.Error, List.append_nil]
  · rw [CreateMedia_traced s w params u w1 request w2 hgen hpre, hmulti]

/-- Witness of C10 on the model store: the set-add at position 2 fails;
`CreateMedia` reports `executing command 2`, and the record, the global tags
and the index of the second tag are in the store all the same, the index of the
first tag being empty. -/
theorem C10_batch_failure_witness :
    (faultyService.CreateMedia Store.empty sampleParams =
      ((none, some (.wrap (ascii "executing command " ++ itoa 2 ++ ascii ": ") sampleError [])),
        (Store.run faultAtTwo 0 Store.empty (createMediaCmds sampleParams sampleUUID.String)).2) ∧
    (GoError.wrap (ascii "executing command " ++ itoa 2 ++ ascii ": ") sampleError []).Error id =
      ascii "executing command " ++ itoa 2 ++ ascii ": " ++ sampleError.Error id ∧
    (GoError.wrap (ascii "executing command " ++ itoa 2 ++ ascii ": ") sampleError []).Unwrap =
      some sampleError ∧
    (faultyService.traced.CreateMedia (Store.empty, []) sampleParams).2 =
      ((Store.run faultAtTwo 0 Store.empty (createMediaCmds sampleParams sampleUUID.String)).2,
        [Call.generateUUID,
          Call.PresignPutObject { Bucket := faultyService.bucket, Key := sampleUUID.String } [],
          Call.DoMulti (createMediaCmds sampleParams sampleUUID.String)])) ∧
    (faultyService.CreateMedia Store.empty sampleParams).2.hashes
        (mediaPrefix ++ sampleUUID.String) =
      [(nameField, ascii "name1"), (tagsField, ascii "tag1,tag2")] ∧
    (faultyService.CreateMedia Store.empty sampleParams).2.sets tagsKey =
      [ascii "tag1", ascii "tag2"] ∧
    (faultyService.CreateMedia Store.empty sampleParams).2.sets (tagsPrefix ++ ascii "tag1") =
      [] ∧
    (faultyService.CreateMedia Store.empty sampleParams).2.sets (tagsPrefix ++ ascii "tag2") =
      [sampleUUID.String] :=
  ⟨C10_batch_failure faultyService Store.empty sampleParams sampleUUID Store.empty
      (some sampleRequest) Store.empty
      (Store.run faultAtTwo 0 Store.empty (createMediaCmds sampleParams sampleUUID.String)).1
      (Store.run faultAtTwo 0 Store.empty (createMediaCmds sampleParams sampleUUID.String)).2
      2 (.failure sampleError) sampleError id rfl rfl rfl (by decide) rfl (by decide),
    by decide, by decide, by decide, by decide⟩

/-! ## The generator and the presigner -/

/-- `CreateMedia` when the generator fails. -/
theorem CreateMedia_of_generator_error {σ : Type} (s : mediaService σ) (w : σ)
    (params : CreateMediaParams) (u : UUID) (e : GoError) (w1 : σ)
    (hgen : s.generateUUID w = ((u, some e), w1)) :
    s.CreateMedia w params = ((none, some (.wrap (ascii "generating UUID: ") e [])), w1) := by
  unfold mediaService.CreateMedia
  simp only [hgen]

/-- `CreateMedia` when the generator succeeds and the presigner fails. -/
theorem CreateMedia_of_presign_error {σ : Type} (s : mediaService σ) (w : σ)
    (params : CreateMediaParams) (u : UUID) (w1 : σ) (x : Option PresignedHTTPRequest)
    (e : GoError) (w2 : σ) (hgen : s.generateUUID w = ((u, none), w1))
    (hpre : s.presignClient w1 { Bucket := s.bucket, Key := u.String } [] = ((x, some e), w2)) :
    s.CreateMedia w params =
      ((none, some (.wrap (ascii "presigning put object: ") e [])), w2) := by
  unfold mediaService.CreateMedia
  simp only [hgen, hpre]

/-- The calls of `CreateMedia` when the generator succeeds and the presigner
fails: the generator and the presigner, nothing else. -/
theorem CreateMedia_traced_presign_error {σ : Type} (s : mediaService σ) (w : σ)
    (params : CreateMediaParams) (u : UUID) (w1 : σ) (x : Option PresignedHTTPRequest)
    (e : GoError) (w2 : σ) (hgen : s.generateUUID w = ((u, none), w1))
    (hpre : s.presignClient w1 { Bucket := s.bucket, Key := u.String } [] = ((x, some e), w2)) :
    (s.traced.CreateMedia (w, []) params).2 =
      (w2, [Call.generateUUID,
        Call.PresignPutObject { Bucket := s.bucket, Key := u.String } []]) := by
  rw [CreateMedia_of_presign_error s.traced (w, []) params u (w1, [Call.generateUUID]) x e
    (w2, [Call.generateUUID, Call.PresignPutObject { Bucket := s.bucket, Key := u.String } []])]
  · simp only [mediaService.traced, hgen, List.nil_append]
  · simp only [mediaService.traced, hpre, List.singleton_append]

/-- Every command of the batch is the hash-write on the record key of the
identifier, a set-add into the global set, or a set-add of the identifier into
an index. -/
theorem createMediaCmds_keys (params : CreateMediaParams) (id : Str) :
    ∀ cmd ∈ createMediaCmds params id,
      (∃ fieldValues, cmd = .Hset (mediaPrefix ++ id) fieldValues) ∨
      (∃ tag, cmd = .Sadd tagsKey tag) ∨ (∃ tag, cmd = .Sadd (tagsPrefix ++ tag) id) := by
  intro cmd hcmd
  simp only [createMediaCmds, List.mem_cons, List.mem_flatMap, List.mem_singleton,
    List.not_mem_nil, or_false] at hcmd
  rcases hcmd with rfl | ⟨tag, _, rfl | rfl⟩
  · exact Or.inl ⟨_, rfl⟩
  · exact Or.inr (Or.inl ⟨tag, rfl⟩)
  · exact Or.inr (Or.inr ⟨tag, rfl⟩)

/-- C11. When the generator answers an identifier, `CreateMedia` calls the
presigner exactly once, with the configured bucket, with the string form of
that identifier as object key and with no options, whatever the presigner
answers; when the presigner reports no error the batch that follows uses the
same identifier in the record key and as the index member; and when in addition
no batch response reports a failure `CreateMedia` returns, with no error,
exactly what the presigner returned. -/
theorem C11_presign_once_and_returned {σ : Type} (s : mediaService σ) (w : σ)
    (params : CreateMediaParams) (u : UUID) (w1 : σ)
    (presigned : Option PresignedHTTPRequest × Option GoError) (w2 : σ)
    (hgen : s.generateUUID w = ((u, none), w1))
    (hpre : s.presignClient w1 { Bucket := s.bucket, Key := u.String } [] = (presigned, w2)) :
    (s.traced.CreateMedia (w, []) params).2.2.filter Call.isPresign =
      [Call.PresignPutObject { Bucket := s.bucket, Key := u.String } []] ∧
    (presigned.2 = none →
      (s.traced.CreateMedia (w, []) params).2.2 =
        [Call.generateUUID, Call.PresignPutObject { Bucket := s.bucket, Key := u.String } [],
          Call.DoMulti (createMediaCmds params u.String)] ∧
      (∀ cmd ∈ createMediaCmds params u.String,
        (∃ fieldValues, cmd = .Hset (mediaPrefix ++ u.String) fieldValues) ∨
        (∃ tag, cmd = .Sadd tagsKey tag) ∨ (∃ tag, cmd = .Sadd (tagsPrefix ++ tag) u.String))) ∧
    (presigned.2 = none →
      (∀ r ∈ (s.rueidisClient.DoMulti w2 (createMediaCmds params u.String)).1, r.Error = none) →
      s.CreateMedia w params =
        ((presigned.1, none), (s.rueidisClient.DoMulti w2 (createMediaCmds params u.String)).2)) := by
  rcases presigned with ⟨request, perr⟩
  cases perr with
  | some e =>
    refine ⟨?_, fun h => by simp at h, fun h => by simp at h⟩
    rw [CreateMedia_traced_presign_error s w params u w1 request e w2 hgen hpre]
    rfl
  | none =>
    refine ⟨?_, fun _ => ⟨?_, createMediaCmds_keys params u.String⟩, fun _ hall => ?_⟩
    · rw [CreateMedia_traced s w params u w1 request w2 hgen hpre]
      rfl
    · rw [CreateMedia_traced s w params u w1 request w2 hgen hpre]
    · rw [CreateMedia_unfold s w params u w1 request w2 _ _ hgen hpre rfl,
        checkResponses_none _ hall 0]

/-- Witness of C11: the unit test `CreateMedia/happy path` on the empty model
store. -/
theorem C11_presign_once_and_returned_witness :
    ((sampleService sampleUUID).traced.CreateMedia (Store.empty, []) sampleParams).2.2.filter
        Call.isPresign =
      [Call.PresignPutObject
        { Bucket := (sampleService sampleUUID).bucket, Key := sampleUUID.String } []] ∧
    ((some sampleRequest, (none : Option GoError)).2 = none →
      ((sampleService sampleUUID).traced.CreateMedia (Store.empty, []) sampleParams).2.2 =
        [Call.generateUUID,
          Call.PresignPutObject
            { Bucket := (sampleService sampleUUID).bucket, Key := sampleUUID.String } [],
          Call.DoMulti (createMediaCmds sampleParams sampleUUID.String)] ∧
      (∀ cmd ∈ createMediaCmds sampleParams sampleUUID.String,
        (∃ fieldValues, cmd = .Hset (mediaPrefix ++ sampleUUID.String) fieldValues) ∨
        (∃ tag, cmd = .Sadd tagsKey tag) ∨
        (∃ tag, cmd = .Sadd (tagsPrefix ++ tag) sampleUUID.String))) ∧
    ((some sampleRequest, (none : Option GoError)).2 = none →
      (∀ r ∈ ((sampleService sampleUUID).rueidisClient.DoMulti Store.empty
          (createMediaCmds sampleParams sampleUUID.String)).1, r.Error = none) →
      (sampleService sampleUUID).CreateMedia Store.empty sampleParams =
        (((some sampleRequest, (none : Option GoError)).1, none),
          ((sampleService sampleUUID).rueidisClient.DoMulti Store.empty
            (createMediaCmds sampleParams sampleUUID.String)).2)) :=
  C11_presign_once_and_returned (sampleService sampleUUID) Store.empty sampleParams sampleUUID
    Store.empty (some sampleRequest, none) Store.empty rfl rfl

/-- C12. If the generator fails with `E`, `CreateMedia` returns nil and the
error `generating UUID: ` + `E`, and the generator is the only collaborator it
called; if the generator succeeds and the presigner fails with `E`, it returns
nil and the error `presigning put object: ` + `E`, and it called the generator
and the presigner and sent no store command.  On the model store, whatever its
state and its faults, the store is left exactly as it was in both cases. -/
theorem C12_generator_or_presign_failure {σ : Type} (s : mediaService σ) (w : σ)
    (params : CreateMediaParams) (u : UUID) (e : GoError) (w1 : σ) (quote : Str → Str)
    (bucket : Str) (endpointURL : URL) (faults : Nat → Option GoError) (st : Store)
    (presigned : Option PresignedHTTPRequest × Option GoError)
    (x : Option PresignedHTTPRequest) :
    (s.generateUUID w = ((u, some e), w1) →
      s.CreateMedia w params = ((none, some (.wrap (ascii "generating UUID: ") e [])), w1) ∧
      (s.traced.CreateMedia (w, []) params).2 = (w1, [Call.generateUUID])) ∧
    (∀ w2, s.generateUUID w = ((u, none), w1) →
      s.presignClient w1 { Bucket := s.bucket, Key := u.String } [] = ((x, some e), w2) →
      s.CreateMedia w params =
        ((none, some (.wrap (ascii "presigning put object: ") e [])), w2) ∧
      (s.traced.CreateMedia (w, []) params).2 =
        (w2, [Call.generateUUID,
          Call.PresignPutObject { Bucket := s.bucket, Key := u.String } []])) ∧
    (GoError.wrap (ascii "generating UUID: ") e []).Error quote =
      ascii "generating UUID: " ++ e.Error quote ∧
    (GoError.wrap (ascii "presigning put object: ") e []).Error quote =
      ascii "presigning put object: " ++ e.Error quote ∧
    (modelService bucket endpointURL faults (u, some e) presigned).CreateMedia st params =
      ((none, some (.wrap (ascii "generating UUID: ") e [])), st) ∧
    (modelService bucket endpointURL faults (u, none) (x, some e)).CreateMedia st params =
      ((none, some (.wrap (ascii "presigning put object: ") e [])), st) := by
  refine ⟨fun hgen => ⟨CreateMedia_of_generator_error s w params u e w1 hgen, ?_⟩,
    fun w2 hgen hpre => ⟨CreateMedia_of_presign_error s w params u w1 x e w2 hgen hpre,
      CreateMedia_traced_presign_error s w params u w1 x e w2 hgen hpre⟩, ?_, ?_,
    CreateMedia_of_generator_error _ st params u e st rfl,
    CreateMedia_of_presign_error _ st params u st x e st rfl rfl⟩
  · rw [CreateMedia_of_generator_error s.traced (w, []) params u e (w1, [Call.generateUUID])]
    simp only [mediaService.traced, hgen, List.nil_append]
  · simp only [GoError.Error, List.append_nil]
  · simp only [GoError.Error, List.append_nil]

/-- Witness of C12: the two failing unit tests of `CreateMedia`, on the store
of the integration test; the store is unchanged and no store command is in the
log. -/
theorem C12_generator_or_presign_failure_witness :
    (failingGeneratorService.CreateMedia sampleStore sampleParams =
        ((none, some (.wrap (ascii "generating UUID: ") sampleError [])), sampleStore) ∧
      (failingGeneratorService.traced.CreateMedia (sampleStore, []) sampleParams).2 =
        (sampleStore, [Call.generateUUID])) ∧
    (failingPresignService.CreateMedia sampleStore sampleParams =
        ((none, some (.wrap (ascii "presigning put object: ") sampleError [])), sampleStore) ∧
      (failingPresignService.traced.CreateMedia (sampleStore, []) sampleParams).2 =
        (sampleStore, [Call.generateUUID,
          Call.PresignPutObject
            { Bucket := failingPresignService.bucket, Key := sampleUUID.String } []])) :=
  ⟨(C12_generator_or_presign_failure failingGeneratorService sampleStore sampleParams sampleUUID
      sampleError sampleStore id [] {} noFaults Store.empty (none, none) none).1 rfl,
    (C12_generator_or_presign_failure failingPresignService sampleStore sampleParams sampleUUID
      sampleError sampleStore id [] {} noFaults Store.empty (none, none) none).2.1 sampleStore
      rfl rfl⟩

/-! ## Failures of `ListMedia` -/

/-- `ListMedia` when the index read cannot be taken as a list of strings. -/
theorem ListMedia_of_index_error {σ : Type} (s : mediaService σ) (w : σ)
    (params : ListMediaParams) (r : RedisResult) (w1 : σ) (e : GoError)
    (hDo : s.rueidisClient.Do w (.Smembers (tagsPrefix ++ params.Tag)) = (r, w1))
    (hfail : r.AsStrSlice.2 = some e) :
    s.ListMedia w params =
      (.returned (none, some (.wrap (ascii "getting media keys from redis: ") e [])), w1) := by
  unfold mediaService.ListMedia
  rcases hs : r.AsStrSlice with ⟨keys, err⟩
  rw [hs] at hfail
  simp only at hfail
  subst hfail
  simp only [hDo, hs]

/-- C13. If the read of the index set of the tag (`SMEMBERS` on `tags:` + tag)
fails with `E`, `ListMedia` returns a nil result and an error that wraps `E`
and whose message is `getting media keys from redis: ` followed by the message
of `E`; the index read is the only command sent, no record read is issued. -/
theorem C13_index_read_failure {σ : Type} (s : mediaService σ) (w : σ)
    (params : ListMediaParams) (r : RedisResult) (w1 : σ) (e : GoError) (quote : Str → Str)
    (hDo : s.rueidisClient.Do w (.Smembers (tagsPrefix ++ params.Tag)) = (r, w1))
    (hfail : r = .failure e) :
    s.ListMedia w params =
      (.returned (none, some (.wrap (ascii "getting media keys from redis: ") e [])), w1) ∧
    (GoError.wrap (ascii "getting media keys from redis: ") e []).Error quote =
      ascii "getting media keys from redis: " ++ e.Error quote ∧
    (GoError.wrap (ascii "getting media keys from redis: ") e []).Unwrap = some e ∧
    (s.traced.ListMedia (w, []) params).2 =
      (w1, [Call.Do (.Smembers (tagsPrefix ++ params.Tag))]) := by
  have hs : r.AsStrSlice.2 = some e := by rw [hfail]; rfl
  refine ⟨ListMedia_of_index_error s w params r w1 e hDo hs, ?_, rfl, ?_⟩
  · simp only [GoError.Error, List.append_nil]
  · rw [ListMedia_of_index_error s.traced (w, []) params r
      (w1, [Call.Do (.Smembers (tagsPrefix ++ params.Tag))]) e _ hs]
    simp only [mediaService.traced, hDo, List.nil_append]

/-- Witness of C13: the unit test `ListMedia/it fails if redis fails`. -/
theorem C13_index_read_failure_witness :
    failingIndexService.ListMedia () { Tag := ascii "mytag" } =
      (.returned (none,
        some (.wrap (ascii "getting media keys from redis: ") sampleError [])), ()) ∧
    (GoError.wrap (ascii "getting media keys from redis: ") sampleError []).Error id =
      ascii "getting media keys from redis: " ++ sampleError.Error id ∧
    (GoError.wrap (ascii "getting media keys from redis: ") sampleError []).Unwrap =
      some sampleError ∧
    (failingIndexService.traced.ListMedia ((), []) { Tag := ascii "mytag" }).2 =
      ((), [Call.Do (.Smembers (tagsPrefix ++ ascii "mytag"))]) :=
  C13_index_read_failure failingIndexService () { Tag := ascii "mytag" } (.failure sampleError)
    () sampleError id rfl rfl

/-- One round of the loop of `ListMedia` on a response that decodes: the
loop goes on to the next position with one more record stored. -/
theorem listLoop_good_step {σ : Type} (s : mediaService σ) (keys : List Str) (i : Nat)
    (resp : RedisResult) (rest : List RedisResult) (result : List MediaRecord)
    (he : resp.Error = none) (hm : resp.AsStrMap.2 = none)
    (hsegs : ∀ seg ∈ segmentsOf resp, hasBadEscape seg = false)
    (hi : i < keys.length) (hres : result.length = keys.length) :
    ∃ record, s.listLoop keys i (resp :: rest) result =
      s.listLoop keys (i + 1) rest (result.set i record) := by
  obtain ⟨tags, hdec⟩ := (decodeTags_hasBadEscape (segmentsOf resp) 0).1 hsegs
  have hkey : keys[i]? = some keys[i] := List.getElem?_eq_getElem hi
  have hi2 : i < result.length := by omega
  refine ⟨s.newRecord keys[i] (GoMap.get (resp.AsStrMap.1.getD []) nameField) tags, ?_⟩
  rw [mediaService.listLoop, he]
  rcases hasm : resp.AsStrMap with ⟨m, e⟩
  rw [hasm] at hm
  simp only at hm
  subst hm
  simp only [segmentsOf, hasm] at hdec
  simp only [hdec, hkey, hi2, if_true, Option.getD_some]

/-- The loop of `ListMedia` runs through a prefix of responses that decode. -/
theorem listLoop_skip {σ : Type} (s : mediaService σ) (keys : List Str) :
    ∀ (i n : Nat) (resps : List RedisResult) (result : List MediaRecord),
      (∀ r ∈ resps.take i, r.Error = none ∧ r.AsStrMap.2 = none ∧
        ∀ seg ∈ segmentsOf r, hasBadEscape seg = false) →
      i ≤ resps.length → n + i ≤ keys.length → result.length = keys.length →
      ∃ result2, result2.length = keys.length ∧
        s.listLoop keys n resps result = s.listLoop keys (n + i) (resps.drop i) result2 := by
  intro i
  induction i with
  | zero => intro n resps result _ _ _ hres; exact ⟨result, hres, rfl⟩
  | succ i ih =>
    intro n resps result hgood hlen hn hres
    cases resps with
    | nil => simp at hlen
    | cons r rest =>
      rw [List.take_succ_cons] at hgood
      obtain ⟨he, hm, hsegs⟩ := hgood r (List.mem_cons_self _ _)
      obtain ⟨record, hstep⟩ := listLoop_good_step s keys n r rest result he hm hsegs
        (by omega) hres
      obtain ⟨result2, hres2, hrest⟩ := ih (n + 1) rest (result.set n record)
        (fun x hx => hgood x (List.mem_cons_of_mem _ hx))
        (by simpa using hlen) (by omega) (by rw [List.length_set]; exact hres)
      refine ⟨result2, hres2, ?_⟩
      rw [hstep, hrest, List.drop_succ_cons]
      have e1 : n + 1 + i = n + (i + 1) := by omega
      rw [e1]

/-- The response at position `i` is the head of what is left after `i`. -/
theorem drop_of_getElem? {α : Type} (l : List α) (i : Nat) (x : α) (h : l[i]? = some x) :
    l.drop i = x :: l.drop (i + 1) := by
  induction l generalizing i with
  | nil => simp at h
  | cons a rest ih =>
    cases i with
    | zero =>
      simp only [List.getElem?_cons_zero, Option.some.injEq] at h
      subst h
      rfl
    | succ i =>
      rw [List.getElem?_cons_succ] at h
      simpa using ih i h

theorem length_of_getElem? {α : Type} (l : List α) (i : Nat) (x : α) (h : l[i]? = some x) :
    i < l.length := by
  by_contra hlt
  rw [List.getElem?_eq_none (by omega)] at h
  exact absurd h (by simp)

/-- C14. `ListMedia` goes through the batch responses in index order and
reports the failure of the lowest position that has one: when the responses
before position `i` all decode and the response at position `i` is a store
error `e`, the error is `getting media record i: ` wrapping `e`; when it is
no error but not a field map, `AsStrMap` failing with `e`, the error is
`decoding media record i: ` wrapping `e`.  Position `i` is the position of the
record's identifier in the index listing (the read at position `i` of the
batch is the one of `keys[i]`), and nothing is asked of the responses after
position `i`: they never change the error. -/
theorem C14_first_failing_record {σ : Type} (s : mediaService σ) (w : σ)
    (params : ListMediaParams) (r : RedisResult) (keys : List Str) (w1 : σ)
    (resps : List RedisResult) (w2 : σ) (i : Nat) (resp : RedisResult) (e : GoError)
    (hDo : s.rueidisClient.Do w (.Smembers (tagsPrefix ++ params.Tag)) = (r, w1))
    (hkeys : r.AsStrSlice = (some keys, none))
    (hMulti : s.rueidisClient.DoMulti w1
      (keys.map (fun key => Cmd.Hgetall (mediaPrefix ++ key))) = (resps, w2))
    (hi : resps[i]? = some resp) (hik : i ≤ keys.length)
    (hbefore : ∀ x ∈ resps.take i, x.Error = none ∧ x.AsStrMap.2 = none ∧
      ∀ seg ∈ segmentsOf x, hasBadEscape seg = false) :
    (resp.Error = some e →
      s.ListMedia w params =
        (.returned (none,
          some (.wrap (ascii "getting media record " ++ itoa i ++ ascii ": ") e [])), w2)) ∧
    (resp.Error = none → resp.AsStrMap.2 = some e →
      s.ListMedia w params =
        (.returned (none,
          some (.wrap (ascii "decoding media record " ++ itoa i ++ ascii ": ") e [])), w2)) ∧
    (keys.map (fun key => Cmd.Hgetall (mediaPrefix ++ key)))[i]? =
      keys[i]?.map (fun key => Cmd.Hgetall (mediaPrefix ++ key)) := by
  have hlen := length_of_getElem? resps i resp hi
  obtain ⟨result2, _, hskip⟩ := listLoop_skip s keys i 0 resps (List.replicate keys.length {})
    hbefore (by omega) (by omega) (by simp)
  rw [ListMedia_unfold s w params r keys w1 resps w2 hDo hkeys hMulti, hskip,
    drop_of_getElem? resps i resp hi, Nat.zero_add]
  refine ⟨fun he => ?_, fun he hm => ?_, ?_⟩
  · rw [mediaService.listLoop, he]
  · rw [mediaService.listLoop, he]
    rcases hasm : resp.AsStrMap with ⟨m, e2⟩
    rw [hasm] at hm
    simp only at hm
    subst hm
    rfl
  · rw [List.getElem?_map]

/-- Witness of C14: a good record, then a store error at position 1, then a
reply at position 2 that is not a field map; the error is the one of position
1.  And the unit test `ListMedia/it fails if decoding media fails`. -/
theorem C14_first_failing_record_witness :
    (failingRecordService.ListMedia () { Tag := ascii "mytag" } =
      (.returned (none,
        some (.wrap (ascii "getting media record " ++ itoa 1 ++ ascii ": ") sampleError [])),
        ())) ∧
    (notAMapService.ListMedia () { Tag := ascii "mytag" } =
      (.returned (none,
        some (.wrap (ascii "decoding media record " ++ itoa 1 ++ ascii ": ")
          (.wrap [] errParse
            (ascii ": redis message type simple string is not a map/array/set or its length is not even"))
          [])), ())) :=
  ⟨(C14_first_failing_record failingRecordService () { Tag := ascii "mytag" }
      (.array false [ascii "key1", ascii "key2", ascii "key3"])
      [ascii "key1", ascii "key2", ascii "key3"] ()
      [.map [(nameField, ascii "name1"), (tagsField, ascii "tag1,tag2")],
       .failure sampleError, .other (ascii "simple string")] () 1 (.failure sampleError)
      sampleError rfl rfl rfl rfl (by decide) (by decide)).1 rfl,
    (C14_first_failing_record notAMapService () { Tag := ascii "mytag" }
      (.array false [ascii "key1", ascii "key2"]) [ascii "key1", ascii "key2"] ()
      [.map [(nameField, ascii "name1"), (tagsField, ascii "tag1,tag2")],
       .other (ascii "simple string")] () 1 (.other (ascii "simple string"))
      (.wrap [] errParse
        (ascii ": redis message type simple string is not a map/array/set or its length is not even"))
      rfl rfl rfl rfl (by decide) (by decide)).2.1 rfl rfl⟩

/-! ## Keys -/

theorem isPrefixOf_append (pre s : Str) : pre.isPrefixOf (pre ++ s) = true := by
  induction pre with
  | nil => simp [List.isPrefixOf]
  | cons c rest ih => simp [List.isPrefixOf, ih]

theorem TrimPrefix_append (pre s : Str) : TrimPrefix (pre ++ s) pre = s := by
  rw [TrimPrefix, if_pos (isPrefixOf_append pre s), List.drop_left]

theorem tagsPrefix_ne_mediaPrefix (t id : Str) : tagsPrefix ++ t ≠ mediaPrefix ++ id := by
  intro h
  have ht : tagsPrefix = [116, 97, 103, 115, 58] := by decide
  have hm : mediaPrefix = [109, 101, 100, 105, 97, 58] := by decide
  rw [ht, hm] at h
  have h0 : (116 : Byte) = 109 := by simpa using congrArg List.head? h
  exact absurd h0 (by decide)

/-- C15. The key encoder is reversible: the index key `tags:` + tag is an
injective function of the tag and the record key `media:` + identifier an
injective function of the identifier, so the index keys of two different tags
differ, whatever the tags hold (a `:` or a leading `tags:` included), and
stripping the fixed prefix from a key gives the tag or the identifier back. -/
theorem C15_key_encoder_reversible (t1 t2 id1 id2 : Str) :
    (tagsPrefix ++ t1 = tagsPrefix ++ t2 ↔ t1 = t2) ∧
    (mediaPrefix ++ id1 = mediaPrefix ++ id2 ↔ id1 = id2) ∧
    (t1 ≠ t2 → tagsPrefix ++ t1 ≠ tagsPrefix ++ t2) ∧
    (id1 ≠ id2 → mediaPrefix ++ id1 ≠ mediaPrefix ++ id2) ∧
    TrimPrefix (tagsPrefix ++ t1) tagsPrefix = t1 ∧
    TrimPrefix (mediaPrefix ++ id1) mediaPrefix = id1 ∧
    tagsPrefix = ascii "tags:" ∧ mediaPrefix = ascii "media:" :=
  ⟨tagsPrefix_inj t1 t2, mediaPrefix_inj id1 id2,
    fun h e => h ((tagsPrefix_inj t1 t2).1 e), fun h e => h ((mediaPrefix_inj id1 id2).1 e),
    TrimPrefix_append tagsPrefix t1, TrimPrefix_append mediaPrefix id1, by decide, by decide⟩

/-- Witness of C15 at the tags `tags:a` and `a:b`. -/
theorem C15_key_encoder_reversible_witness :
    tagsPrefix ++ ascii "tags:a" ≠ tagsPrefix ++ ascii "a:b" ∧
    TrimPrefix (tagsPrefix ++ ascii "tags:a") tagsPrefix = ascii "tags:a" ∧
    TrimPrefix (mediaPrefix ++ sampleUUID.String) mediaPrefix = sampleUUID.String :=
  ⟨(C15_key_encoder_reversible (ascii "tags:a") (ascii "a:b") sampleUUID.String
      otherUUID.String).2.2.1 (by decide),
    (C15_key_encoder_reversible (ascii "tags:a") (ascii "a:b") sampleUUID.String
      otherUUID.String).2.2.2.2.1,
    (C15_key_encoder_reversible (ascii "tags:a") (ascii "a:b") sampleUUID.String
      otherUUID.String).2.2.2.2.2.1⟩

/-- Refutation of C16 as stated: no tag has an index key equal to the key of
the global tag set or to the record key of any identifier. -/
theorem C16_no_colliding_tag :
    ¬ ∃ t : Str, tagsPrefix ++ t = tagsKey ∨ ∃ id : Str, tagsPrefix ++ t = mediaPrefix ++ id := by
  rintro ⟨t, h | ⟨id, h⟩⟩
  · exact tagsKey_ne_tagsPrefix t h
  · exact tagsPrefix_ne_mediaPrefix t id h

/-- C16, amended. Tag names are not escaped when the index keys are built,
and still the key spaces stay apart: for every tag, the tags holding a `:` or
the prefix `tags:` included, the index key `tags:` + tag is longer than the key
`tags` of the global tag set and starts with `tags:`, so it is not that key,
and it is not the record key `media:` + id of any identifier either; the keys
the batch of `CreateMedia` writes are of these three kinds only. -/
theorem C16_key_spaces_disjoint (t id : Str) (params : CreateMediaParams) :
    tagsPrefix ++ t ≠ tagsKey ∧ tagsPrefix ++ t ≠ mediaPrefix ++ id ∧
    mediaPrefix ++ id ≠ tagsKey ∧
    tagsKey.length < (tagsPrefix ++ t).length ∧
    (∀ cmd ∈ createMediaCmds params id,
      (∃ fieldValues, cmd = .Hset (mediaPrefix ++ id) fieldValues) ∨
      (∃ tag, cmd = .Sadd tagsKey tag) ∨ (∃ tag, cmd = .Sadd (tagsPrefix ++ tag) id)) := by
  refine ⟨tagsKey_ne_tagsPrefix t, tagsPrefix_ne_mediaPrefix t id, ?_, ?_,
    createMediaCmds_keys params id⟩
  · intro h
    have ht : tagsKey = [116, 97, 103, 115] := by decide
    have hm : mediaPrefix = [109, 101, 100, 105, 97, 58] := by decide
    rw [ht, hm] at h
    have h0 : (109 : Byte) = 116 := by simpa using congrArg List.head? h
    exact absurd h0 (by decide)
  · simp [tagsPrefix, tagsKey, ascii]

/-! ## Consistency of the index and the records -/

/-- In a consistent store the record of a media created with at least one tag
exists and decodes to the tag list it was created with. -/
theorem Consistent.decodedTags {h : List Created} {st : Store} (hc : Consistent h st)
    (m : Created) (hm : m ∈ h) (hne : m.params.Tags ≠ []) :
    st.hasRecord m.id ∧ st.decodedTags m.id = some m.params.Tags := by
  constructor
  · rw [Store.hasRecord, hc.record m hm]
    exact List.cons_ne_nil _ _
  · have hseg : segmentsOf (st.exec (.Hgetall (mediaPrefix ++ m.id))).1 =
        Split (Join (m.params.Tags.map QueryEscape) (ascii ",")) := by
      simp only [segmentsOf, Store.exec, RedisResult.AsStrMap, Option.getD_some]
      rw [hc.record m hm, (record_get _ _).2]
    rw [Store.decodedTags, hseg, decode_encode _ hne]

/-- In a consistent store every record belongs to a media of the history. -/
theorem Consistent.of_hasRecord {h : List Created} {st : Store} (hc : Consistent h st)
    (id : Str) (hrec : st.hasRecord id) : ∃ m ∈ h, m.id = id := by
  by_contra hno
  apply hrec
  apply hc.unused
  intro hmem
  rcases List.mem_map.1 hmem with ⟨m, hm, hid⟩
  exact hno ⟨m, hm, hid⟩

/-- Refutation of C17 as stated: after one successful `CreateMedia` with an
empty tag list on the empty store, the record of the new identifier exists and
its decoded tag list is the one-element list holding the empty tag, and the
identifier is not in the index of the empty tag. -/
theorem C17_empty_tag_list_counterexample :
    Run emptyTagsHistory emptyTagsStore ∧
    ¬ (sampleUUID.String ∈ emptyTagsStore.sets (tagsPrefix ++ []) ↔
      emptyTagsStore.hasRecord sampleUUID.String ∧
        ∃ tags, emptyTagsStore.decodedTags sampleUUID.String = some tags ∧ [] ∈ tags) := by
  refine ⟨Run.createMedia (ascii "mybucket") sampleEndpoint sampleUUID (some sampleRequest)
    emptyTagsParams Run.init (by decide), ?_⟩
  intro hiff
  have hrec : emptyTagsStore.hasRecord sampleUUID.String := by
    unfold Store.hasRecord
    decide
  have hmem := hiff.2 ⟨hrec, [[]], by decide, by decide⟩
  revert hmem
  decide

/-- C17, amended. Over the model store that starts empty, after any sequence
of successful `CreateTag` and `CreateMedia` calls with pairwise distinct
identifiers in which every media is created with at least one tag: for every
tag `t` and identifier `id`, `id` is in the index of `t` if and only if a
record for `id` exists and the tag list decoded from it contains `t`; and every
tag of the tag list decoded from an existing record is in the global tag
set. -/
theorem C17_index_record_consistency (h : List Created) (st : Store) (hr : Run h st)
    (hne : ∀ m ∈ h, m.params.Tags ≠ []) (t id : Str) :
    (id ∈ st.sets (tagsPrefix ++ t) ↔
      st.hasRecord id ∧ ∃ tags, st.decodedTags id = some tags ∧ t ∈ tags) ∧
    (st.hasRecord id → ∀ tags, st.decodedTags id = some tags →
      ∀ x ∈ tags, x ∈ st.sets tagsKey) := by
  have hc := hr.consistent
  refine ⟨⟨?_, ?_⟩, ?_⟩
  · intro hmem
    rw [hc.index t] at hmem
    rcases List.mem_map.1 hmem with ⟨m, hm, rfl⟩
    obtain ⟨hmh, ht⟩ := List.mem_filter.1 hm
    obtain ⟨hrec, hdec⟩ := hc.decodedTags m hmh (hne m hmh)
    exact ⟨hrec, m.params.Tags, hdec, by simpa using ht⟩
  · rintro ⟨hrec, tags, hdec, ht⟩
    obtain ⟨m, hm, rfl⟩ := hc.of_hasRecord id hrec
    rw [(hc.decodedTags m hm (hne m hm)).2] at hdec
    simp only [Option.some.injEq] at hdec
    subst hdec
    rw [hc.index t]
    exact List.mem_map_of_mem _ (List.mem_filter.2 ⟨hm, by simpa using ht⟩)
  · intro hrec tags hdec x hx
    obtain ⟨m, hm, rfl⟩ := hc.of_hasRecord id hrec
    rw [(hc.decodedTags m hm (hne m hm)).2] at hdec
    simp only [Option.some.injEq] at hdec
    subst hdec
    exact hc.global m hm x hx

/-- Witness of C17, amended, on the store of the integration test, for `tag2`
and the first media. -/
theorem C17_index_record_consistency_witness :
    (sampleUUID.String ∈ sampleStore.sets (tagsPrefix ++ ascii "tag2") ↔
      sampleStore.hasRecord sampleUUID.String ∧
        ∃ tags, sampleStore.decodedTags sampleUUID.String = some tags ∧ ascii "tag2" ∈ tags) ∧
    (sampleStore.hasRecord sampleUUID.String →
      ∀ tags, sampleStore.decodedTags sampleUUID.String = some tags →
        ∀ x ∈ tags, x ∈ sampleStore.sets tagsKey) :=
  C17_index_record_consistency sampleHistory sampleStore sample_run (by decide)
    (ascii "tag2") sampleUUID.String

/-! ## The catalog only grows -/

/-- No command removes a member from a set. -/
theorem exec_sets_mono (st : Store) (cmd : Cmd) (key x : Str) (hx : x ∈ st.sets key) :
    x ∈ (st.exec cmd).2.sets key := by
  cases cmd with
  | Sadd k member =>
    rw [exec_Sadd_sets]
    by_cases h : key = k ∧ member ∉ st.sets k
    · rw [if_pos h, ← h.1]
      exact List.mem_append_left _ hx
    · rw [if_neg h]
      exact hx
  | Smembers k => exact hx
  | Hgetall k => exact hx
  | Hset k fieldValues => exact hx

/-- No batch removes a member from a set, whatever faults it meets. -/
theorem run_sets_mono (faults : Nat → Option GoError) (cmds : List Cmd) :
    ∀ (i : Nat) (st : Store) (key x : Str), x ∈ st.sets key →
      x ∈ (Store.run faults i st cmds).2.sets key := by
  induction cmds with
  | nil => intro i st key x hx; exact hx
  | cons cmd rest ih =>
    intro i st key x hx
    rw [Store.run]
    cases hf : faults i with
    | some err => exact ih (i + 1) st key x hx
    | none => exact ih (i + 1) _ key x (exec_sets_mono st cmd key x hx)

/-- The state a single command leaves is the state its batch of one leaves. -/
theorem Do_state (faults : Nat → Option GoError) (st : Store) (cmd : Cmd) :
    ((storeClient faults).Do st cmd).2 = (Store.run faults 0 st [cmd]).2 := by
  simp only [storeClient]
  rcases hr : Store.run faults 0 st [cmd] with ⟨resps, st1⟩
  cases resps <;> rfl

/-- A batch of reads leaves the store as it was, whatever faults it meets. -/
theorem run_reads (faults : Nat → Option GoError) (cmds : List Cmd)
    (hread : ∀ cmd ∈ cmds, cmd.isRead = true) :
    ∀ (i : Nat) (st : Store), (Store.run faults i st cmds).2 = st := by
  induction cmds with
  | nil => intro i st; rfl
  | cons cmd rest ih =>
    intro i st
    have hrest := ih (fun c hc => hread c (List.mem_cons_of_mem _ hc))
    have hcmd := hread cmd (List.mem_cons_self _ _)
    rw [Store.run]
    cases hf : faults i with
    | some err => exact hrest (i + 1) st
    | none =>
      have hst : (st.exec cmd).2 = st := by
        cases cmd with
        | Sadd k member => simp [Cmd.isRead] at hcmd
        | Smembers k => rfl
        | Hgetall k => rfl
        | Hset k fieldValues => simp [Cmd.isRead] at hcmd
      simp only
      rw [hst]
      exact hrest (i + 1) st

/-- The world `CreateTag` leaves is the one its command left. -/
theorem CreateTag_state {σ : Type} (s : mediaService σ) (w : σ) (params : CreateTagParams) :
    (s.CreateTag w params).2 = (s.rueidisClient.Do w (.Sadd tagsKey params.Name)).2 := by
  unfold mediaService.CreateTag
  simp only
  split <;> rfl

/-- The world `ListTags` leaves is the one its command left. -/
theorem ListTags_state {σ : Type} (s : mediaService σ) (w : σ) :
    (s.ListTags w).2 = (s.rueidisClient.Do w (.Smembers tagsKey)).2 := by
  unfold mediaService.ListTags
  simp only
  split <;> rfl

/-- `ListMedia` leaves the model store as it was, whatever faults it meets. -/
theorem ListMedia_state_model (bucket : Str) (endpointURL : URL) (faults : Nat → Option GoError)
    (uuid : UUID × Option GoError) (presigned : Option PresignedHTTPRequest × Option GoError)
    (st : Store) (params : ListMediaParams) :
    ((modelService bucket endpointURL faults uuid presigned).ListMedia st params).2 = st := by
  have hDo : ∀ cmd, cmd.isRead = true → ((storeClient faults).Do st cmd).2 = st := by
    intro cmd hcmd
    rw [Do_state]
    exact run_reads faults [cmd] (fun c hc => by rw [List.mem_singleton.1 hc]; exact hcmd) 0 st
  unfold mediaService.ListMedia
  simp only [modelService]
  split
  · exact hDo (.Smembers (tagsPrefix ++ params.Tag)) rfl
  · rw [hDo (.Smembers (tagsPrefix ++ params.Tag)) rfl]
    exact run_reads faults _ (fun c hc => by
      rcases List.mem_map.1 hc with ⟨key, _, rfl⟩
      rfl) 0 st

/-- The store `CreateMedia` leaves on the model store: the one it found, or
the one its batch left. -/
theorem CreateMedia_state_model (bucket : Str) (endpointURL : URL)
    (faults : Nat → Option GoError) (uuid : UUID × Option GoError)
    (presigned : Option PresignedHTTPRequest × Option GoError) (st : Store)
    (params : CreateMediaParams) :
    ((modelService bucket endpointURL faults uuid presigned).CreateMedia st params).2 = st ∨
    ((modelService bucket endpointURL faults uuid presigned).CreateMedia st params).2 =
      (Store.run faults 0 st (createMediaCmds params uuid.1.String)).2 := by
  rcases uuid with ⟨u, uerr⟩
  rcases presigned with ⟨request, perr⟩
  cases uerr with
  | some e => exact Or.inl (by rw [CreateMedia_of_generator_error _ st params u e st rfl])
  | none =>
    cases perr with
    | some e => exact Or.inl (by rw [CreateMedia_of_presign_error _ st params u st request e st rfl rfl])
    | none =>
      refine Or.inr ?_
      rw [CreateMedia_unfold _ st params u st request st
        (Store.run faults 0 st (createMediaCmds params u.String)).1
        (Store.run faults 0 st (createMediaCmds params u.String)).2 rfl rfl rfl]
      split <;> rfl

/-- C18. The catalog only grows: on the model store, from every state and
whatever the faults injected and the answers of the generator and of the
presigner, hence for successful and for failed calls alike, every tag of the
global tag set and every identifier of every tag index is still there after
`CreateTag` and after `CreateMedia`; `ListTags` and `ListMedia` leave the store
exactly as it was. -/
theorem C18_catalog_only_grows (bucket : Str) (endpointURL : URL)
    (faults : Nat → Option GoError) (uuid : UUID × Option GoError)
    (presigned : Option PresignedHTTPRequest × Option GoError) (st : Store)
    (tagParams : CreateTagParams) (mediaParams : CreateMediaParams)
    (listParams : ListMediaParams) :
    (∀ x ∈ st.sets tagsKey,
      x ∈ ((modelService bucket endpointURL faults uuid presigned).CreateTag st
        tagParams).2.sets tagsKey) ∧
    (∀ t, ∀ id ∈ st.sets (tagsPrefix ++ t),
      id ∈ ((modelService bucket endpointURL faults uuid presigned).CreateTag st
        tagParams).2.sets (tagsPrefix ++ t)) ∧
    (∀ x ∈ st.sets tagsKey,
      x ∈ ((modelService bucket endpointURL faults uuid presigned).CreateMedia st
        mediaParams).2.sets tagsKey) ∧
    (∀ t, ∀ id ∈ st.sets (tagsPrefix ++ t),
      id ∈ ((modelService bucket endpointURL faults uuid presigned).CreateMedia st
        mediaParams).2.sets (tagsPrefix ++ t)) ∧
    ((modelService bucket endpointURL faults uuid presigned).ListTags st).2 = st ∧
    ((modelService bucket endpointURL faults uuid presigned).ListMedia st listParams).2 = st := by
  have htag : ∀ key, ∀ x ∈ st.sets key,
      x ∈ ((modelService bucket endpointURL faults uuid presigned).CreateTag st
        tagParams).2.sets key := by
    intro key x hx
    rw [CreateTag_state]
    simp only [modelService]
    rw [Do_state]
    exact run_sets_mono faults _ 0 st key x hx
  have hmedia : ∀ key, ∀ x ∈ st.sets key,
      x ∈ ((modelService bucket endpointURL faults uuid presigned).CreateMedia st
        mediaParams).2.sets key := by
    intro key x hx
    rcases CreateMedia_state_model bucket endpointURL faults uuid presigned st mediaParams
      with h | h
    · rw [h]; exact hx
    · rw [h]; exact run_sets_mono faults _ 0 st key x hx
  refine ⟨htag tagsKey, fun t => htag _, hmedia tagsKey, fun t => hmedia _, ?_,
    ListMedia_state_model bucket endpointURL faults uuid presigned st listParams⟩
  rw [ListTags_state]
  simp only [modelService]
  rw [Do_state]
  exact run_reads faults [Cmd.Smembers tagsKey]
    (fun c hc => by rw [List.mem_singleton.1 hc]; rfl) 0 st

/-! ## The position in a tag-decoding error -/

/-- The inner loop of `ListMedia` stops at the first segment with a bad escape
and names its position. -/
theorem decodeTags_first_bad (segs : List Str) :
    ∀ (k n : Nat) (seg : Str), segs[k]? = some seg → hasBadEscape seg = true →
      (∀ x ∈ segs.take k, hasBadEscape x = false) →
      ∃ bad, QueryUnescape seg = ([], some (.escapeError bad)) ∧
        decodeTags n segs =
          (none, some (.wrap (ascii "decoding tag " ++ itoa (n + k) ++ ascii ": ")
            (.escapeError bad) [])) := by
  induction segs with
  | nil => intro k n seg h; simp at h
  | cons x rest ih =>
    intro k n seg hk hbad hfirst
    cases k with
    | zero =>
      simp only [List.getElem?_cons_zero, Option.some.injEq] at hk
      subst hk
      obtain ⟨bad, hq⟩ := (QueryUnescape_hasBadEscape x).2 hbad
      exact ⟨bad, hq, by rw [decodeTags, hq]; rfl⟩
    | succ k =>
      rw [List.getElem?_cons_succ] at hk
      rw [List.take_succ_cons] at hfirst
      obtain ⟨tag, htag⟩ := (QueryUnescape_hasBadEscape x).1 (hfirst x (List.mem_cons_self _ _))
      obtain ⟨bad, hq, hdec⟩ := ih k (n + 1) seg hk hbad
        (fun y hy => hfirst y (List.mem_cons_of_mem _ hy))
      refine ⟨bad, hq, ?_⟩
      rw [decodeTags, htag]
      simp only [hdec]
      have e1 : n + 1 + k = n + (k + 1) := by omega
      rw [e1]

/-- One round of the loop of `ListMedia` on a field map whose tags do not
decode: the loop ends with the error of the inner loop. -/
theorem listLoop_tag_error {σ : Type} (s : mediaService σ) (keys : List Str) (i : Nat)
    (resp : RedisResult) (rest : List RedisResult) (result : List MediaRecord) (e : GoError)
    (he : resp.Error = none) (hm : resp.AsStrMap.2 = none)
    (hdec : decodeTags 0 (segmentsOf resp) = (none, some e)) :
    s.listLoop keys i (resp :: rest) result = .returned (none, some e) := by
  rw [mediaService.listLoop, he]
  rcases hasm : resp.AsStrMap with ⟨m, e2⟩
  rw [hasm] at hm
  simp only at hm
  subst hm
  simp only [segmentsOf, hasm] at hdec
  simp only [hdec]

/-- C19. When the responses before position `i` decode and the record at
position `i` is a field map whose tags field has its first segment that is not
valid percent-encoding at position `k` of its comma-separated list, `ListMedia`
fails with `decoding tag k: ` wrapping the `url.EscapeError` of that segment;
the message is `decoding tag k: invalid URL escape ` followed by the quoted
bytes of the error; and `k` is the position of the segment in the tag list,
whatever the position `i` of the record.  For the stored field `tag2,tag3%`
the message is `decoding tag 1: invalid URL escape "%"`. -/
theorem C19_decoding_tag_position {σ : Type} (s : mediaService σ) (w : σ)
    (params : ListMediaParams) (r : RedisResult) (keys : List Str) (w1 : σ)
    (resps : List RedisResult) (w2 : σ) (i k : Nat) (resp : RedisResult) (seg : Str)
    (quote nonASCII : Str → Str)
    (hDo : s.rueidisClient.Do w (.Smembers (tagsPrefix ++ params.Tag)) = (r, w1))
    (hkeys : r.AsStrSlice = (some keys, none))
    (hMulti : s.rueidisClient.DoMulti w1
      (keys.map (fun key => Cmd.Hgetall (mediaPrefix ++ key))) = (resps, w2))
    (hi : resps[i]? = some resp) (hik : i ≤ keys.length)
    (hbefore : ∀ x ∈ resps.take i, x.Error = none ∧ x.AsStrMap.2 = none ∧
      ∀ seg ∈ segmentsOf x, hasBadEscape seg = false)
    (he : resp.Error = none) (hm : resp.AsStrMap.2 = none)
    (hk : (segmentsOf resp)[k]? = some seg) (hbad : hasBadEscape seg = true)
    (hfirst : ∀ x ∈ (segmentsOf resp).take k, hasBadEscape x = false) :
    (∃ bad, QueryUnescape seg = ([], some (.escapeError bad)) ∧
      s.ListMedia w params =
        (.returned (none,
          some (.wrap (ascii "decoding tag " ++ itoa k ++ ascii ": ") (.escapeError bad) [])),
          w2) ∧
      (GoError.wrap (ascii "decoding tag " ++ itoa k ++ ascii ": ")
          (.escapeError bad) []).Error quote =
        ascii "decoding tag " ++ itoa k ++ ascii ": " ++
          (ascii "invalid URL escape " ++ quote bad)) ∧
    ((decodeTags 0 (Split (ascii "tag2,tag3%"))).2.map
        (fun e => e.Error (strconvQuote nonASCII)) =
      some (ascii "decoding tag 1: invalid URL escape \"%\"")) := by
  refine ⟨?_, rfl⟩
  obtain ⟨bad, hq, hdec⟩ := decodeTags_first_bad (segmentsOf resp) k 0 seg hk hbad hfirst
  rw [Nat.zero_add] at hdec
  have hlen := length_of_getElem? resps i resp hi
  obtain ⟨result2, _, hskip⟩ := listLoop_skip s keys i 0 resps (List.replicate keys.length {})
    hbefore (by omega) (by omega) (by simp)
  refine ⟨bad, hq, ?_, ?_⟩
  · rw [ListMedia_unfold s w params r keys w1 resps w2 hDo hkeys hMulti, hskip,
      drop_of_getElem? resps i resp hi, Nat.zero_add,
      listLoop_tag_error s keys i resp _ result2 _ he hm hdec]
  · simp only [GoError.Error, List.append_nil]

/-- Witness of C19: the record with the field `tag2,tag3%` at position 1 (the
unit test `ListMedia/it fails if decoding tags fails`) and at position 0; the
error is `decoding tag 1` both times. -/
theorem C19_decoding_tag_position_witness :
    ((∃ bad, QueryUnescape (ascii "tag3%") = ([], some (.escapeError bad)) ∧
      badTagService.ListMedia () { Tag := ascii "mytag" } =
        (.returned (none,
          some (.wrap (ascii "decoding tag " ++ itoa 1 ++ ascii ": ") (.escapeError bad) [])),
          ()) ∧
      (GoError.wrap (ascii "decoding tag " ++ itoa 1 ++ ascii ": ")
          (.escapeError bad) []).Error (strconvQuote id) =
        ascii "decoding tag " ++ itoa 1 ++ ascii ": " ++
          (ascii "invalid URL escape " ++ strconvQuote id bad)) ∧
    ((decodeTags 0 (Split (ascii "tag2,tag3%"))).2.map
        (fun e => e.Error (strconvQuote id)) =
      some (ascii "decoding tag 1: invalid URL escape \"%\""))) ∧
    ((∃ bad, QueryUnescape (ascii "tag3%") = ([], some (.escapeError bad)) ∧
      badTagFirstService.ListMedia () { Tag := ascii "mytag" } =
        (.returned (none,
          some (.wrap (ascii "decoding tag " ++ itoa 1 ++ ascii ": ") (.escapeError bad) [])),
          ()) ∧
      (GoError.wrap (ascii "decoding tag " ++ itoa 1 ++ ascii ": ")
          (.escapeError bad) []).Error (strconvQuote id) =
        ascii "decoding tag " ++ itoa 1 ++ ascii ": " ++
          (ascii "invalid URL escape " ++ strconvQuote id bad)) ∧
    ((decodeTags 0 (Split (ascii "tag2,tag3%"))).2.map
        (fun e => e.Error (strconvQuote id)) =
      some (ascii "decoding tag 1: invalid URL escape \"%\""))) :=
  ⟨C19_decoding_tag_position badTagService () { Tag := ascii "mytag" }
      (.array false [ascii "key1", ascii "key2"]) [ascii "key1", ascii "key2"] ()
      [.map [(nameField, ascii "name1"), (tagsField, ascii "tag1,tag2")],
       .map [(nameField, ascii "name2"), (tagsField, ascii "tag2,tag3%")]] () 1 1
      (.map [(nameField, ascii "name2"), (tagsField, ascii "tag2,tag3%")]) (ascii "tag3%")
      (strconvQuote id) id rfl rfl rfl rfl (by decide) (by decide) rfl rfl (by decide)
      (by decide) (by decide),
    C19_decoding_tag_position badTagFirstService () { Tag := ascii "mytag" }
      (.array false [ascii "key1", ascii "key2"]) [ascii "key1", ascii "key2"] ()
      [.map [(nameField, ascii "name2"), (tagsField, ascii "tag2,tag3%")],
       .map [(nameField, ascii "name1"), (tagsField, ascii "tag1,tag2")]] () 0 1
      (.map [(nameField, ascii "name2"), (tagsField, ascii "tag2,tag3%")]) (ascii "tag3%")
      (strconvQuote id) id rfl rfl rfl rfl (by decide) (by decide) rfl rfl (by decide)
      (by decide) (by decide)⟩

/-! ## The decoded tag list is never empty -/

/-- A string has no comma or is cut by its first comma. -/
theorem first_comma (s : Str) :
    (44 : Byte) ∉ s ∨ ∃ a b, s = a ++ 44 :: b ∧ (44 : Byte) ∉ a := by
  induction s with
  | nil => exact Or.inl (List.not_mem_nil _)
  | cons c rest ih =>
    by_cases hc : c = 44
    · exact Or.inr ⟨[], rest, by rw [hc]; rfl, List.not_mem_nil _⟩
    · rcases ih with h | ⟨a, b, hs, ha⟩
      · refine Or.inl ?_
        intro hmem
        rcases List.mem_cons.1 hmem with h2 | h2
        · exact hc h2.symm
        · exact h h2
      · refine Or.inr ⟨c :: a, b, by rw [hs]; rfl, ?_⟩
        intro hmem
        rcases List.mem_cons.1 hmem with h2 | h2
        · exact hc h2.symm
        · exact ha h2

/-- `Split` gives one segment more than there are commas. -/
theorem Split_length (s : Str) : (Split s).length = countComma s + 1 := by
  have hmain : ∀ (n : Nat) (s : Str), s.length ≤ n → (Split s).length = countComma s + 1 := by
    intro n
    induction n with
    | zero =>
      intro s hs
      have : s = [] := List.length_eq_zero.1 (by omega)
      subst this
      rfl
    | succ n ih =>
      intro s hs
      rcases first_comma s with h | ⟨a, b, rfl, ha⟩
      · rw [Split_of_not_mem s h]
        simp [countComma, List.count_eq_zero_of_not_mem h]
      · rw [Split_append a b ha, countComma_append a b ha, List.length_cons,
          ih b (by simp only [List.length_append, List.length_cons] at hs; omega)]
  exact hmain s.length s (Nat.le_refl _)

/-- The inner loop of `ListMedia` gives one tag per segment. -/
theorem decodeTags_length (segs : List Str) :
    ∀ (i : Nat) (tags : List Str), decodeTags i segs = (some tags, none) →
      tags.length = segs.length := by
  induction segs with
  | nil =>
    intro i tags h
    simp only [decodeTags, Prod.mk.injEq, Option.some.injEq, and_true] at h
    rw [← h]
  | cons seg rest ih =>
    intro i tags h
    rw [decodeTags] at h
    split at h
    · simp at h
    · split at h
      · rename_i rtags hrest
        simp only [Prod.mk.injEq, Option.some.injEq, and_true] at h
        rw [← h, List.length_cons, List.length_cons, ih (i + 1) rtags hrest]
      · rename_i hne
        exact absurd h (by
          intro hh
          exact hne tags hh)

/-- The batch of record reads on the fault-free model store. -/
theorem run_Hgetall (st : Store) (ks : List Str) :
    ∀ i, Store.run noFaults i st (ks.map (fun key => Cmd.Hgetall (mediaPrefix ++ key))) =
      (ks.map (fun key => (st.exec (.Hgetall (mediaPrefix ++ key))).1), st) := by
  induction ks with
  | nil => intro i; rfl
  | cons k rest ih =>
    intro i
    have hst : (st.exec (Cmd.Hgetall (mediaPrefix ++ k))).2 = st := rfl
    rw [List.map_cons, run_cons_noFaults, hst, ih]
    rfl

/-- C20. The tag list `ListMedia` decodes for a record is never empty: a
tags field with only valid segments decodes to exactly one entry more than it
has commas; on the model store, when the tags field of every record listed
under a tag is the empty string or is missing, `ListMedia` returns without
error one record per listed identifier with `Tags` the one-element list
holding the empty string and `Name` what the name field holds; an identifier
with no stored hash at all has an empty tags field and an empty name; and the
encoding `CreateMedia` writes for an empty tag list is the empty string, which
decodes to the one-element list holding the empty string, not to the empty
list. -/
theorem C20_decoded_tags_never_empty (field : Str) (bucket : Str) (endpointURL : URL)
    (uuid : UUID × Option GoError) (presigned : Option PresignedHTTPRequest × Option GoError)
    (st : Store) (t name id : Str) :
    ((∀ seg ∈ Split field, hasBadEscape seg = false) →
      ∃ tags, decodeTags 0 (Split field) = (some tags, none) ∧
        tags.length = countComma field + 1 ∧ tags ≠ []) ∧
    ((∀ key ∈ st.sets (tagsPrefix ++ t), st.decodedTagsField key = []) →
      (modelService bucket endpointURL noFaults uuid presigned).ListMedia st { Tag := t } =
        (.returned (some ((st.sets (tagsPrefix ++ t)).map (fun key =>
          (modelService bucket endpointURL noFaults uuid presigned).newRecord key
            (st.decodedName key) [[]])), none), st)) ∧
    (st.hashes (mediaPrefix ++ id) = [] →
      st.decodedTagsField id = [] ∧ st.decodedName id = [] ∧ st.decodedTags id = some [[]]) ∧
    createMediaCmds { Name := name, Tags := [] } id =
      [.Hset (mediaPrefix ++ id) [(nameField, name), (tagsField, [])]] ∧
    decodeTags 0 (Split []) = (some [[]], none) := by
  refine ⟨?_, ?_, ?_, rfl, rfl⟩
  · intro hgood
    obtain ⟨tags, htags⟩ := (decodeTags_hasBadEscape (Split field) 0).1 hgood
    have hlen : tags.length = countComma field + 1 := by
      rw [decodeTags_length _ 0 tags htags, Split_length]
    refine ⟨tags, htags, hlen, ?_⟩
    intro hnil
    rw [hnil] at hlen
    simp at hlen
  · intro hempty
    have hDo : (modelService bucket endpointURL noFaults uuid presigned).rueidisClient.Do st
        (.Smembers (tagsPrefix ++ t)) = (.array true (st.sets (tagsPrefix ++ t)), st) :=
      Do_noFaults st _
    rw [ListMedia_unfold _ st { Tag := t } _ _ st _ st hDo rfl (run_Hgetall st _ 0)]
    have := listLoop_records (modelService bucket endpointURL noFaults uuid presigned)
      (fun key => key) (fun key => (st.exec (.Hgetall (mediaPrefix ++ key))).1)
      (fun key => (modelService bucket endpointURL noFaults uuid presigned).newRecord key
        (st.decodedName key) [[]])
      (st.sets (tagsPrefix ++ t))
      (by
        intro key hkey
        refine ⟨rfl, _, [[]], rfl, ?_, rfl⟩
        have h0 := hempty key hkey
        simp only [Store.decodedTagsField, Store.exec, RedisResult.AsStrMap,
          Option.getD_some] at h0
        rw [h0]
        rfl)
      (st.sets (tagsPrefix ++ t)) []
      (List.replicate (st.sets (tagsPrefix ++ t)).length {}) rfl (by simp)
    rw [List.length_nil, List.take_zero, List.nil_append, List.map_id'] at this
    exact congrArg (fun o => (o, st)) this
  · intro hnone
    simp only [Store.decodedTagsField, Store.decodedName, Store.decodedTags, segmentsOf,
      Store.exec, hnone]
    exact ⟨rfl, rfl, rfl⟩

/-- Witness of C20: an identifier listed under `tag1` with no stored hash is
returned with the tag list holding the empty string and an empty name. -/
theorem C20_decoded_tags_never_empty_witness :
    (sampleService sampleUUID).ListMedia danglingIndexStore { Tag := ascii "tag1" } =
      (.returned (some danglingRecords, none), danglingIndexStore) :=
  (C20_decoded_tags_never_empty [] (ascii "mybucket") sampleEndpoint (sampleUUID, none)
    (some sampleRequest, none) danglingIndexStore (ascii "tag1") [] []).2.1 (by decide)

/-! ## Creating, then listing -/

/-- Refutation of C1 as stated: on a store in which every command succeeds,
with the index of `a` listing `zz` and the record of `zz` holding the tags
field `%`, the new identifier is not yet a record key and `CreateMedia` with
the tag `a` succeeds, and `ListMedia` for `a` returns a nil result and the
error `decoding tag 0`, hence no record for the new identifier. -/
theorem C1_corrupt_neighbour_counterexample :
    corruptStore.hashes (mediaPrefix ++ sampleUUID.String) = [] ∧
    ((sampleService sampleUUID).CreateMedia corruptStore
        { Name := ascii "n", Tags := [ascii "a"] }).1 = (some sampleRequest, none) ∧
    ((sampleService sampleUUID).ListMedia
        ((sampleService sampleUUID).CreateMedia corruptStore
          { Name := ascii "n", Tags := [ascii "a"] }).2 { Tag := ascii "a" }).1 =
      .returned (none,
        some (.wrap (ascii "decoding tag " ++ itoa 0 ++ ascii ": ")
          (.escapeError (ascii "%")) [])) ∧
    ¬ ∃ recs,
      ((sampleService sampleUUID).ListMedia
        ((sampleService sampleUUID).CreateMedia corruptStore
          { Name := ascii "n", Tags := [ascii "a"] }).2 { Tag := ascii "a" }).1 =
        .returned (some recs, none) ∧
      ∃ r ∈ recs, r.Key = sampleUUID.String ∧ r.Name = ascii "n" ∧ r.Tags = [ascii "a"] := by
  have hlist : ((sampleService sampleUUID).ListMedia
        ((sampleService sampleUUID).CreateMedia corruptStore
          { Name := ascii "n", Tags := [ascii "a"] }).2 { Tag := ascii "a" }).1 =
      .returned (none,
        some (.wrap (ascii "decoding tag " ++ itoa 0 ++ ascii ": ")
          (.escapeError (ascii "%")) [])) := by decide
  refine ⟨by decide, by decide, hlist, ?_⟩
  rintro ⟨recs, hrecs, _⟩
  rw [hlist] at hrecs
  simp at hrecs

/-- C1, amended. Over the fault-free model store, from every state in which
every record already listed in the index of `t` decodes (every comma-separated
segment of its tags field is valid percent-encoding): when the generated
identifier is not yet a record key and `t` is one of `tags`,
`CreateMedia(name, tags)` succeeds and afterwards `ListMedia(t)` returns
without error a result holding a record for that identifier with `Name = name`
and `Tags = tags`, the same elements in the same order with the same
duplicates. -/
theorem C1_create_then_list_round_trip (bucket : Str) (endpointURL : URL) (u : UUID)
    (request : Option PresignedHTTPRequest) (st : Store)
    (name : Str) (tags : List Str) (t : Str) (ht : t ∈ tags)
    (hfresh : st.hashes (mediaPrefix ++ u.String) = [])
    (hothers : ∀ key ∈ st.sets (tagsPrefix ++ t),
      ∀ seg ∈ segmentsOf (st.exec (.Hgetall (mediaPrefix ++ key))).1,
        hasBadEscape seg = false) :
    ((modelService bucket endpointURL noFaults (u, none) (request, none)).CreateMedia st
        { Name := name, Tags := tags }).1 = (request, none) ∧
    ∃ recs,
      ((modelService bucket endpointURL noFaults (u, none) (request, none)).ListMedia
        ((modelService bucket endpointURL noFaults (u, none) (request, none)).CreateMedia st
          { Name := name, Tags := tags }).2 { Tag := t }).1 = .returned (some recs, none) ∧
      ∃ r ∈ recs, r.Key = u.String ∧ r.Name = name ∧ r.Tags = tags := by
  rw [CreateMedia_model]
  obtain ⟨hh, hi, _⟩ := createMediaCmds_run { Name := name, Tags := tags } u.String st
  generalize (Store.run noFaults 0 st
    (createMediaCmds { Name := name, Tags := tags } u.String)).2 = st1 at hh hi ⊢
  simp only at hh hi
  have hrec : st1.hashes (mediaPrefix ++ u.String) =
      [(nameField, name), (tagsField, Join (tags.map QueryEscape) (ascii ","))] := by
    rw [hh, Function.update_same, hfresh, hsetField_fresh]
  have hsame : ∀ key, key ≠ u.String →
      st1.hashes (mediaPrefix ++ key) = st.hashes (mediaPrefix ++ key) := by
    intro key hkey
    rw [hh, Function.update_noteq (fun e => hkey ((mediaPrefix_inj _ _).1 e))]
  have hkeys : u.String ∈ st1.sets (tagsPrefix ++ t) ∧
      ∀ key ∈ st1.sets (tagsPrefix ++ t), key = u.String ∨ key ∈ st.sets (tagsPrefix ++ t) := by
    rw [hi t]
    by_cases hin : u.String ∈ st.sets (tagsPrefix ++ t)
    · rw [if_neg (fun h => h.2 hin)]
      exact ⟨hin, fun key hkey => Or.inr hkey⟩
    · rw [if_pos ⟨ht, hin⟩]
      refine ⟨List.mem_append_right _ (List.mem_singleton_self _), fun key hkey => ?_⟩
      rcases List.mem_append.1 hkey with h | h
      · exact Or.inr h
      · exact Or.inl (List.mem_singleton.1 h)
  have hsegs : ∀ key, segmentsOf (st1.exec (.Hgetall (mediaPrefix ++ key))).1 =
      Split (GoMap.get ((st1.hashes (mediaPrefix ++ key)).foldl (fun r kv => kv :: r) [])
        tagsField) := fun _ => rfl
  have hnew : st1.decodedTags u.String = some tags ∧ st1.decodedName u.String = name := by
    constructor
    · rw [Store.decodedTags, hsegs, hrec, (record_get _ _).2,
        decode_encode tags (List.ne_nil_of_mem ht)]
    · simp only [Store.decodedName, Store.exec, RedisResult.AsStrMap, Option.getD_some]
      rw [hrec, (record_get _ _).1]
  have hdec : ∀ key ∈ st1.sets (tagsPrefix ++ t), ∃ tags1,
      decodeTags 0 (segmentsOf (st1.exec (.Hgetall (mediaPrefix ++ key))).1) =
        (some tags1, none) := by
    intro key hkey
    by_cases hk : key = u.String
    · refine ⟨tags, ?_⟩
      rw [hk, hsegs, hrec, (record_get _ _).2, decode_encode tags (List.ne_nil_of_mem ht)]
    · rcases hkeys.2 key hkey with h | h
      · exact absurd h hk
      · apply (decodeTags_hasBadEscape _ 0).1
        have := hothers key h
        rw [hsegs, hsame key hk]
        exact this
  have hDo : (modelService bucket endpointURL noFaults (u, none) (request, none)).rueidisClient.Do
      st1 (.Smembers (tagsPrefix ++ t)) = (.array true (st1.sets (tagsPrefix ++ t)), st1) :=
    Do_noFaults st1 _
  have hloop := listLoop_records
    (modelService bucket endpointURL noFaults (u, none) (request, none))
    (fun key => key) (fun key => (st1.exec (.Hgetall (mediaPrefix ++ key))).1)
    (fun key => (modelService bucket endpointURL noFaults (u, none) (request, none)).newRecord
      key (st1.decodedName key) ((st1.decodedTags key).getD []))
    (st1.sets (tagsPrefix ++ t))
    (by
      intro key hkey
      obtain ⟨tags1, htags1⟩ := hdec key hkey
      refine ⟨rfl, _, tags1, rfl, htags1, ?_⟩
      have hd : st1.decodedTags key = some tags1 := by
        rw [Store.decodedTags, htags1]
      beta_reduce
      rw [hd]
      rfl)
    (st1.sets (tagsPrefix ++ t)) []
    (List.replicate (st1.sets (tagsPrefix ++ t)).length {}) rfl (by simp)
  rw [List.length_nil, List.take_zero, List.nil_append, List.map_id'] at hloop
  refine ⟨rfl, (st1.sets (tagsPrefix ++ t)).map (fun key =>
    (modelService bucket endpointURL noFaults (u, none) (request, none)).newRecord
      key (st1.decodedName key) ((st1.decodedTags key).getD [])), ?_, ?_⟩
  · rw [ListMedia_unfold _ st1 { Tag := t } _ _ st1 _ st1 hDo rfl (run_Hgetall st1 _ 0)]
    exact hloop
  · refine ⟨_, List.mem_map_of_mem _ hkeys.1, rfl, ?_, ?_⟩
    · simp only [mediaService.newRecord]
      exact hnew.2
    · simp only [mediaService.newRecord]
      rw [hnew.1]
      rfl

/-- Witness of C1, amended, on the store of the integration test: a third
media created with `tag2` and `ta,g3` is listed under `tag2` next to the two
that were there. -/
theorem C1_create_then_list_round_trip_witness :
    ((sampleService thirdUUID).CreateMedia sampleStore
        { Name := ascii "media3", Tags := [ascii "tag2", ascii "ta,g3"] }).1 =
      (some sampleRequest, none) ∧
    ∃ recs,
      ((sampleService thirdUUID).ListMedia
        ((sampleService thirdUUID).CreateMedia sampleStore
          { Name := ascii "media3", Tags := [ascii "tag2", ascii "ta,g3"] }).2
        { Tag := ascii "tag2" }).1 = .returned (some recs, none) ∧
      ∃ r ∈ recs, r.Key = thirdUUID.String ∧ r.Name = ascii "media3" ∧
        r.Tags = [ascii "tag2", ascii "ta,g3"] :=
  C1_create_then_list_round_trip (ascii "mybucket") sampleEndpoint thirdUUID
    (some sampleRequest) sampleStore (ascii "media3") [ascii "tag2", ascii "ta,g3"]
    (ascii "tag2") (by decide) (by decide) (by decide)

end Scoreplay
